import Mathlib

/-!
Verification development for an excerpt of the nextgisweb repository.

Two source files are modelled:

* `nextgisweb/feature_layer/model.py` — the `LayerField` data model and the
  `_fields_attr` serialized property (its `getter` and `setter`), together with
  the `ordering_list('idx')` collection behaviour and the
  `feature_label_field` reference of `LayerFieldsMixin`.

* `nextgisweb/pyramidcomp.py` — `PyramidComponent.make_app`, which merges
  settings, overwrites `mako.directories`, asserts the presence of `secret`,
  registers policies and routes, computes a static cache key while redirecting
  `sys.stdout`, and invokes component hooks.

Python objects are mutable and aliased, so the layer state is embedded with an
explicit heap: every `LayerField` object has an address (an index into a list),
the `fields` relationship is a list of addresses, and `feature_label_field` is
an optional address.  Machine-level concerns do not arise: ids are natural
numbers, strings are Lean strings, and fallible code returns `Except`.
-/

namespace FeatureLayer

/-- A `LayerField` ORM object as seen at the Python level.  `id` is `none`
while the row is unflushed (`fld.id is None`); `idx` is `none` until the
ordering list assigns a position; `keyname`, `display_name` and
`grid_visibility` are `none` while unset (their column defaults apply only at
flush time).  `datatype` is always set: the constructor call in the setter is
`obj.__field_class__(datatype=fld['datatype'])` and the column is not
nullable. -/
structure LayerField where
  id : Option Nat
  idx : Option Nat
  keyname : Option String
  datatype : String
  display_name : Option String
  grid_visibility : Option Bool
deriving Repr, DecidableEq

/-- Placeholder object returned when a heap address is out of range; a
well-formed state never dereferences it. -/
def defaultField : LayerField :=
  { id := none, idx := none, keyname := none, datatype := "",
    display_name := none, grid_visibility := none }

/-- The slice of a layer object touched by the serializer: `heap` assigns each
field object an address, `fields` is the `obj.fields` ordered collection (a
list of addresses) and `flf` is the `obj.feature_label_field` reference. -/
structure LayerState where
  heap : List LayerField
  fields : List Nat
  flf : Option Nat
deriving Repr, DecidableEq

/-- Dereference a heap address. -/
def fieldAt (h : List LayerField) (a : Nat) : LayerField :=
  h.getD a defaultField

/-- Python truthiness of a field id: `None` and `0` are falsy, every other
integer is truthy (`if fld.id:` / `if fldid:`). -/
def idTruthy : Option Nat → Bool
  | none => false
  | some n => n != 0

/-- A submitted field descriptor (one JSON object of the write payload).
Dict-key presence is distinguished from a present `null` value: the outer
`Option` of `keyname`, `display_name` and `grid_visibility` records whether
the key is in the dict (`'keyname' in fld`), the inner value is what is
stored.  `id` models `fld.get('id')`, which conflates an absent key with a
present `None`.  `label_field` models `fld.get('label_field', False)`.
`datatype` is required by the wire format. -/
structure FieldDesc where
  id : Option Nat
  keyname : Option (Option String)
  datatype : String
  display_name : Option (Option String)
  grid_visibility : Option (Option Bool)
  label_field : Bool
deriving Repr, DecidableEq

/-- The error raised by the setter (`ValidationError(_("Field not found
(ID=%d)."))`). -/
inductive ValidationError where
  | fieldNotFound (fldid : Nat)
deriving Repr, DecidableEq

/-- First loop of `_fields_attr.setter`:

    fldmap = dict()
    for idx, fld in reversed(list(enumerate(list(obj.fields)))):
        if fld.id:
            fldmap[fld.id] = fld
            obj.fields.pop(idx)

Iterating the reversed snapshot and popping at the original indices removes
exactly the truthy-id fields, leaving the falsy-id ones in order (second
component).  The dict assignment in reversed order means that, for a repeated
id, the binding written last — i.e. the field occurring first in collection
order — wins; the association list below is therefore built in collection
order and looked up by first match.  (`OrderingList.pop` also renumbers the
`idx` attributes of the remaining elements, but the trailing
`obj.fields.reorder()` renumbers everything again, so that intermediate
effect is invisible in any state the setter returns.) -/
def collectMap (h : List LayerField) : List Nat → List (Nat × Nat) × List Nat
  | [] => ([], [])
  | a :: rest =>
    let (m, kept) := collectMap h rest
    match (fieldAt h a).id with
    | some n => if n != 0 then ((n, a) :: m, kept) else (m, a :: kept)
    | none => (m, a :: kept)

/-- First-match lookup in the `fldmap` association list (`fldmap.get(fldid)`,
given the binding order established by `collectMap`). -/
def lookupId (n : Nat) : List (Nat × Nat) → Option Nat
  | [] => none
  | (k, a) :: rest => if k = n then some a else lookupId n rest

/-- The three conditional attribute updates of the setter loop:

    if 'keyname' in fld: mfld.keyname = fld['keyname']
    if 'display_name' in fld: mfld.display_name = fld['display_name']
    if 'grid_visibility' in fld: mfld.grid_visibility = fld['grid_visibility']
-/
def applyFldUpdates (f : LayerField) (d : FieldDesc) : LayerField :=
  let f1 := match d.keyname with
    | some k => { f with keyname := k }
    | none => f
  let f2 := match d.display_name with
    | some k => { f1 with display_name := k }
    | none => f1
  match d.grid_visibility with
  | some g => { f2 with grid_visibility := g }
  | none => f2

/-- A freshly constructed field object:
`obj.__field_class__(datatype=fld['datatype'])`. -/
def newField (d : FieldDesc) : LayerField :=
  { id := none, idx := none, keyname := none, datatype := d.datatype,
    display_name := none, grid_visibility := none }

/-- One iteration of the setter's main loop (`for fld in value:`) over the
current state.  A truthy submitted id is looked up in `fldmap`, raising
`ValidationError` when absent; otherwise a fresh object is allocated.  The
object is then updated in place, possibly made the label field, and appended
to the collection (`OrderingList.append` assigns `idx` the current collection
length). -/
def setterStep (fldmap : List (Nat × Nat)) (s : LayerState) (d : FieldDesc) :
    Except ValidationError LayerState :=
  match d.id with
  | some n =>
    if n != 0 then
      match lookupId n fldmap with
      | none => Except.error (ValidationError.fieldNotFound n)
      | some a =>
        let obj := { applyFldUpdates (fieldAt s.heap a) d with
                     idx := some s.fields.length }
        Except.ok
          { heap := s.heap.set a obj,
            fields := s.fields ++ [a],
            flf := if d.label_field then some a else s.flf }
    else
      let a := s.heap.length
      let obj := { applyFldUpdates (newField d) d with
                   idx := some s.fields.length }
      Except.ok
        { heap := s.heap ++ [obj],
          fields := s.fields ++ [a],
          flf := if d.label_field then some a else s.flf }
  | none =>
    let a := s.heap.length
    let obj := { applyFldUpdates (newField d) d with
                 idx := some s.fields.length }
    Except.ok
      { heap := s.heap ++ [obj],
        fields := s.fields ++ [a],
        flf := if d.label_field then some a else s.flf }

/-- `obj.fields.reorder()`: walk the collection and assign each element's
`idx` its position, starting from `i`. -/
def reorderFrom (h : List LayerField) (i : Nat) : List Nat → List LayerField
  | [] => h
  | a :: rest =>
    reorderFrom (h.set a { fieldAt h a with idx := some i }) (i + 1) rest

/-- `_fields_attr.setter`: split off the truthy-id fields into `fldmap`,
clear `feature_label_field`, run the main loop over the submitted
descriptors, and renumber the collection. -/
def setter (s : LayerState) (value : List FieldDesc) :
    Except ValidationError LayerState := do
  let (fldmap, kept) := collectMap s.heap s.fields
  let s1 : LayerState := { heap := s.heap, fields := kept, flf := none }
  let s2 ← value.foldlM (setterStep fldmap) s1
  pure { s2 with heap := reorderFrom s2.heap 0 s2.fields }

/-- One emitted field summary of `_fields_attr.getter`.  `typemod` is the
constant `None`.  `label_field` is `f == srlzr.obj.feature_label_field`,
which for these ORM objects is object identity — address equality here. -/
structure FieldRead where
  id : Option Nat
  keyname : Option String
  datatype : String
  typemod : Option Unit
  display_name : Option String
  label_field : Bool
  grid_visibility : Option Bool
deriving Repr, DecidableEq

/-- The summary the getter emits for the field object at address `a`. -/
def readField (s : LayerState) (a : Nat) : FieldRead :=
  let f := fieldAt s.heap a
  { id := f.id, keyname := f.keyname, datatype := f.datatype,
    typemod := none, display_name := f.display_name,
    label_field := s.flf = some a,
    grid_visibility := f.grid_visibility }

/-- `_fields_attr.getter`. -/
def getter (s : LayerState) : List FieldRead :=
  s.fields.map (readField s)

/-- Re-submitting a getter payload: every key the getter emits is present in
the dict, so each optional attribute arrives as a present value. -/
def readToDesc (r : FieldRead) : FieldDesc :=
  { id := r.id, keyname := some r.keyname, datatype := r.datatype,
    display_name := some r.display_name,
    grid_visibility := some r.grid_visibility,
    label_field := r.label_field }

/-- The nonzero ids carried by a list of submitted descriptors, in order. -/
def descIds (v : List FieldDesc) : List Nat :=
  v.filterMap fun d => match d.id with
    | some n => if n != 0 then some n else none
    | none => none

instance : DecidableEq (Except ValidationError LayerState) := fun x y =>
  match x, y with
  | Except.error e, Except.error e' =>
    decidable_of_iff (e = e')
      ⟨fun h => h ▸ rfl, fun h => by injection h⟩
  | Except.ok s, Except.ok s' =>
    decidable_of_iff (s = s')
      ⟨fun h => h ▸ rfl, fun h => by injection h⟩
  | Except.error _, Except.ok _ => isFalse (by intro h; cases h)
  | Except.ok _, Except.error _ => isFalse (by intro h; cases h)

/-- The `feature_label_field` reference produced by the setter loop: the loop
initialises it to `None` and each descriptor with a truthy `label_field`
overwrites it with the field just handled, so the last such assignment wins.
The list pairs each appended address with its descriptor. -/
def lastLabel (z : Option Nat) : List (Nat × FieldDesc) → Option Nat
  | [] => z
  | (a, d) :: rest => lastLabel (if d.label_field then some a else z) rest

/-- The value of the cleared-and-reassigned `feature_label_field` after the
prefix `pre` of a round-trip resubmission has been replayed: the original
reference once its target has been re-appended, `None` before that. -/
def flfAfter (z : Option Nat) (pre : List Nat) : Option Nat :=
  match z with
  | none => none
  | some a0 => if a0 ∈ pre then some a0 else none

/-! Concrete example layers and payloads used by witnesses and
counterexamples. -/

/-- A persisted field with id 1. -/
def exFieldA : LayerField :=
  { id := some 1, idx := some 0, keyname := some "name",
    datatype := "STRING", display_name := some "Name",
    grid_visibility := some true }

/-- A persisted field with id 2. -/
def exFieldB : LayerField :=
  { id := some 2, idx := some 1, keyname := some "height",
    datatype := "REAL", display_name := some "Height",
    grid_visibility := some false }

/-- A field created earlier in the same transaction and not yet flushed:
its `id` is still `None`. -/
def exFieldU : LayerField :=
  { id := none, idx := some 0, keyname := some "tmp",
    datatype := "INTEGER", display_name := some "Tmp",
    grid_visibility := none }

/-- A layer with two persisted fields; field 2 is the label field. -/
def exLayerAB : LayerState :=
  { heap := [exFieldA, exFieldB], fields := [0, 1], flf := some 1 }

/-- A layer holding a single unflushed field. -/
def exLayerU : LayerState :=
  { heap := [exFieldU], fields := [0], flf := none }

/-- A layer with no fields. -/
def exLayerEmpty : LayerState :=
  { heap := [], fields := [], flf := none }

/-- Update descriptor for field 1. -/
def exDesc1 : FieldDesc :=
  { id := some 1, keyname := some (some "name"), datatype := "STRING",
    display_name := some (some "Name"), grid_visibility := some (some true),
    label_field := false }

/-- Update descriptor for field 2, renaming it and making it the label. -/
def exDesc2 : FieldDesc :=
  { id := some 2, keyname := none, datatype := "REAL",
    display_name := some (some "Height 2"), grid_visibility := none,
    label_field := true }

/-- Descriptor without an id: requests creation of a new field. -/
def exDescNew : FieldDesc :=
  { id := none, keyname := some (some "code"), datatype := "INTEGER",
    display_name := some (some "Code"), grid_visibility := none,
    label_field := false }

/-- Descriptor whose `id` key is present but holds the falsy value `0`. -/
def exDescZero : FieldDesc :=
  { id := some 0, keyname := none, datatype := "STRING",
    display_name := none, grid_visibility := none, label_field := false }

/-- Descriptor referencing the nonexistent id 9. -/
def exDescNine : FieldDesc :=
  { id := some 9, keyname := none, datatype := "STRING",
    display_name := none, grid_visibility := none, label_field := false }

/-- Result of writing `[exDescZero]` to the empty layer: a brand-new field,
no validation error. -/
def exC2CexResult : LayerState :=
  { heap := [{ id := none,
               idx := some 0,
               keyname := none,
               datatype := "STRING",
               display_name := none,
               grid_visibility := none }],
    fields := [0],
    flf := none }

/-- Result of writing `[exDescNew]` to `exLayerU`: the unflushed field stays
at position 0 and the submitted field lands at position 1. -/
def exC4CexResult : LayerState :=
  { heap := [exFieldU,
             { id := none,
               idx := some 1,
               keyname := some "code",
               datatype := "INTEGER",
               display_name := some "Code",
               grid_visibility := none }],
    fields := [0, 1],
    flf := none }

/-- Result of writing `[exDesc2, exDescNew]` to `exLayerAB`: field 2 kept
and updated, field 1 dropped, one new field appended. -/
def exResultDropAdd : LayerState :=
  { heap := [exFieldA,
             { id := some 2,
               idx := some 0,
               keyname := some "height",
               datatype := "REAL",
               display_name := some "Height 2",
               grid_visibility := some false },
             { id := none,
               idx := some 1,
               keyname := some "code",
               datatype := "INTEGER",
               display_name := some "Code",
               grid_visibility := none }],
    fields := [1, 2],
    flf := some 1 }

/-- Result of writing `[exDesc2, exDesc1]` to `exLayerAB`: the two fields
swap places and their `idx` values follow the submission order. -/
def exResultSwap : LayerState :=
  { heap := [{ id := some 1,
               idx := some 1,
               keyname := some "name",
               datatype := "STRING",
               display_name := some "Name",
               grid_visibility := some true },
             { id := some 2,
               idx := some 0,
               keyname := some "height",
               datatype := "REAL",
               display_name := some "Height 2",
               grid_visibility := some false }],
    fields := [1, 0],
    flf := some 1 }

end FeatureLayer

namespace PyramidComp

/-- A registered plugin component, identified by a number.  Modelled from the
spec: the component registry (`Component.registry`, `self._env`) is outside
this excerpt; the spec's plugin contract says every registered component may
implement `setup_pyramid(config)` and a class-level `setup_routes(config)`,
and that both hooks are invoked on every registered component in registration
order. -/
structure Comp where
  cid : Nat
deriving Repr, DecidableEq

/-- Modelled from the spec: `self._env` as the ordered registry of plugin
components.  Both `self._env.chain('setup_pyramid')` and
`self._env._components.itervalues()` are modelled as this registration-order
list, per the spec sentence quoted at `Comp`. -/
structure Env where
  components : List Comp
deriving Repr, DecidableEq

/-- The value of the global `sys.stdout`: either the process stream that was
installed before `make_app` ran (abstracted by a number), or the `StringIO`
buffer installed around the `pip freeze` call. -/
inductive Stdout where
  | real (n : Nat)
  | buffer
deriving Repr, DecidableEq

/-- Outcome of the `import pip` / `pip.main(['freeze'])` section:  the import
itself may raise (before `sys.stdout` is redirected), `pip.main` may raise
(after the redirect), or the freeze listing succeeds with some output. -/
inductive PipRun where
  | importError
  | mainError
  | ok (listing : String)
deriving Repr, DecidableEq

/-- The ways `make_app` itself can raise: the `assert 'secret' in settings`
failure, or an exception escaping the `try/finally` around `pip`. -/
inductive MakeAppError where
  | assertionSecretNotSet
  | pipFailure
deriving Repr, DecidableEq

/-- The observable content of the Pyramid `Configurator` built by `make_app`:
the settings dict it was given, the request properties and includes
registered, the authentication policy (recorded with its secret) and
authorization policy, named routes with their patterns, static views, the
hook invocation traces, and whether `config.scan()` ran. -/
structure PConfig where
  settings : List (String × String)
  requestProps : List String
  includes : List String
  authn : Option String
  authz : Bool
  routes : List (String × String)
  staticViews : List (String × String)
  pyramidHookCalls : List Nat
  routeHookCalls : List Nat
  scanned : Bool
deriving Repr, DecidableEq

/-- Python dict assignment `d[k] = v`: replace the binding if the key exists,
bind it otherwise.  Bindings are kept with the most recent one first and
looked up by first match (`List.lookup`), so duplicate stale keys are
filtered out. -/
def dictSet (d : List (String × String)) (k v : String) :
    List (String × String) :=
  (k, v) :: d.filter fun p => p.1 != k

/-- Python `dict(base, **upd)`: start from `base` and assign every binding of
`upd`. -/
def dictMerge (base upd : List (String × String)) :
    List (String × String) :=
  upd.foldl (fun acc kv => dictSet acc kv.1 kv.2) base

/-- The `try/finally` block computing the static cache key:

    stdout = sys.stdout
    static_key = ''
    try:  (body: the pip module is imported,
        buf = StringIO(), sys.stdout = buf,
        pip.main(['freeze', ]), h = md5(),
        h.update(buf.getvalue()),
        static_key = '/' + h.hexdigest())
    finally:
        sys.stdout = stdout

`sysOut` is the current `sys.stdout`; the first component of the result is
`sys.stdout` after the block.  `md5hex` abstracts `md5(...).hexdigest()`.
When `pip` raises, the `finally` clause still restores `sys.stdout` and the
exception propagates (there is no `except` clause). -/
def staticKeySection (pip : PipRun) (md5hex : String → String)
    (sysOut : Stdout) : Stdout × Except MakeAppError String :=
  let stdout := sysOut
  let (sysOutTry, res) :=
    match pip with
    | PipRun.importError => (sysOut, Except.error MakeAppError.pipFailure)
    | PipRun.mainError => (Stdout.buffer, Except.error MakeAppError.pipFailure)
    | PipRun.ok listing =>
      (Stdout.buffer, Except.ok ("/" ++ md5hex listing))
  let _ := sysOutTry
  (stdout, res)

/-- `PyramidComponent.make_app(settings)`.  `base` is `self._settings`,
`given` the argument, `env` the component registry, `pip` and `md5hex` the
behaviour of the external `pip freeze` and `md5` calls, and `sysOut` the
incoming `sys.stdout`.  The result pairs the final `sys.stdout` with either
the raised exception or the built configuration.  The two hook loops are
modelled from the spec (see `Comp`): each iterates the registered components
in registration order, invoking `setup_pyramid` and the class-level
`setup_routes` respectively. -/
def make_app (base : List (String × String)) (env : Env)
    (given : List (String × String)) (pip : PipRun)
    (md5hex : String → String) (sysOut : Stdout) :
    Stdout × Except MakeAppError PConfig :=
  let settings := dictMerge base given
  let settings := dictSet settings "mako.directories" "nextgisweb:templates/"
  let config : PConfig :=
    { settings := settings, requestProps := [], includes := [],
      authn := none, authz := false, routes := [], staticViews := [],
      pyramidHookCalls := [], routeHookCalls := [], scanned := false }
  let config := { config with requestProps := config.requestProps ++ ["env"] }
  let config := { config with includes := config.includes ++ ["pyramid_tm"] }
  match settings.lookup "secret" with
  | none => (sysOut, Except.error MakeAppError.assertionSecretNotSet)
  | some secret =>
    let config := { config with authn := some secret }
    let config := { config with authz := true }
    let config := { config with routes := config.routes ++ [("home", "/")] }
    match staticKeySection pip md5hex sysOut with
    | (sysOut2, Except.error e) => (sysOut2, Except.error e)
    | (sysOut2, Except.ok staticKey) =>
      let config := { config with staticViews := config.staticViews ++
        [("static" ++ staticKey ++ "/asset", "static")] }
      let config := { config with routes := config.routes ++
        [("amd_package", "static" ++ staticKey ++ "/amd/*subpath")] }
      let config := { config with pyramidHookCalls :=
        config.pyramidHookCalls ++ env.components.map Comp.cid }
      let config := { config with routeHookCalls :=
        config.routeHookCalls ++ env.components.map Comp.cid }
      let config := { config with scanned := true }
      (sysOut2, Except.ok config)

/-! Concrete example environment and settings used by witnesses. -/

/-- Two registered components. -/
def exEnv : Env := { components := [{ cid := 1 }, { cid := 2 }] }

/-- Caller settings carrying a secret and one pass-through key. -/
def exGiven : List (String × String) := [("secret", "abc"), ("debug", "1")]

/-- Caller settings without a secret. -/
def exNoSecret : List (String × String) := [("debug", "1")]

/-- The configuration produced by
`make_app [] exEnv exGiven (PipRun.ok "p") (fun s => s) (Stdout.real 7)`. -/
def exCfg : PConfig :=
  { settings := [("mako.directories", "nextgisweb:templates/"),
      ("debug", "1"), ("secret", "abc")],
    requestProps := ["env"], includes := ["pyramid_tm"],
    authn := some "abc", authz := true,
    routes := [("home", "/"), ("amd_package", "static/p/amd/*subpath")],
    staticViews := [("static/p/asset", "static")],
    pyramidHookCalls := [1, 2], routeHookCalls := [1, 2],
    scanned := true }

end PyramidComp

namespace FeatureLayer

section HeapLemmas

theorem fieldAt_cons_zero (x : LayerField) (h : List LayerField) :
    fieldAt (x :: h) 0 = x := rfl

theorem fieldAt_cons_succ (x : LayerField) (h : List LayerField) (a : Nat) :
    fieldAt (x :: h) (a + 1) = fieldAt h a := rfl

theorem fieldAt_append_lt (h h' : List LayerField) (a : Nat)
    (ha : a < h.length) : fieldAt (h ++ h') a = fieldAt h a := by
  induction h generalizing a with
  | nil => cases ha
  | cons x t ih =>
    cases a with
    | zero => rfl
    | succ a => exact ih a (Nat.lt_of_succ_lt_succ ha)

theorem fieldAt_append_self (h : List LayerField) (x : LayerField) :
    fieldAt (h ++ [x]) h.length = x := by
  induction h with
  | nil => rfl
  | cons y t ih => exact ih

theorem fieldAt_set_self (h : List LayerField) (a : Nat) (x : LayerField)
    (ha : a < h.length) : fieldAt (h.set a x) a = x := by
  induction h generalizing a with
  | nil => cases ha
  | cons y t ih =>
    cases a with
    | zero => rfl
    | succ a => exact ih a (Nat.lt_of_succ_lt_succ ha)

theorem fieldAt_set_ne (h : List LayerField) (a b : Nat) (x : LayerField)
    (hab : b ≠ a) : fieldAt (h.set a x) b = fieldAt h b := by
  induction h generalizing a b with
  | nil => rfl
  | cons y t ih =>
    cases a with
    | zero =>
      cases b with
      | zero => exact absurd rfl hab
      | succ b => rfl
    | succ a =>
      cases b with
      | zero => rfl
      | succ b => exact ih a b fun hc => hab (by omega)

theorem set_fieldAt_self (h : List LayerField) (a : Nat) :
    h.set a (fieldAt h a) = h := by
  induction h generalizing a with
  | nil => rfl
  | cons y t ih =>
    cases a with
    | zero => rfl
    | succ a => simpa [List.set, fieldAt_cons_succ] using ih a

end HeapLemmas

section CollectMapLemmas

theorem lookupId_cons (n k b : Nat) (rest : List (Nat × Nat)) :
    lookupId n ((k, b) :: rest) =
      if k = n then some b else lookupId n rest := rfl

theorem lookupId_eq_some_mem {n a : Nat} {m : List (Nat × Nat)}
    (h : lookupId n m = some a) : (n, a) ∈ m := by
  induction m with
  | nil => cases h
  | cons p rest ih =>
    obtain ⟨k, b⟩ := p
    rw [lookupId_cons] at h
    by_cases hk : k = n
    · rw [if_pos hk] at h
      injection h with h
      subst hk; subst h
      exact List.mem_cons_self _ _
    · rw [if_neg hk] at h
      exact List.mem_cons_of_mem _ (ih h)

theorem collectMap_fst_mem {h : List LayerField} {l : List Nat}
    {n a : Nat} (hmem : (n, a) ∈ (collectMap h l).1) :
    a ∈ l ∧ (fieldAt h a).id = some n ∧ n ≠ 0 := by
  induction l with
  | nil => cases hmem
  | cons b rest ih =>
    simp only [collectMap] at hmem
    rcases hid : (fieldAt h b).id with _ | k
    · rw [hid] at hmem
      obtain ⟨ha, hb, hc⟩ := ih hmem
      exact ⟨List.mem_cons_of_mem _ ha, hb, hc⟩
    · rw [hid] at hmem
      by_cases hk : k = 0
      · subst hk
        simp only [bne_self_eq_false, Bool.false_eq_true, if_false] at hmem
        obtain ⟨ha, hb, hc⟩ := ih hmem
        exact ⟨List.mem_cons_of_mem _ ha, hb, hc⟩
      · have hk' : (k != 0) = true := by simpa using hk
        simp only [hk', if_true, List.mem_cons, Prod.mk.injEq] at hmem
        rcases hmem with ⟨rfl, rfl⟩ | hmem
        · exact ⟨List.mem_cons_self _ _, hid, hk⟩
        · obtain ⟨ha, hb, hc⟩ := ih hmem
          exact ⟨List.mem_cons_of_mem _ ha, hb, hc⟩

theorem collectMap_snd_eq (h : List LayerField) (l : List Nat) :
    (collectMap h l).2 = l.filter fun a => !(idTruthy (fieldAt h a).id) := by
  induction l with
  | nil => rfl
  | cons b rest ih =>
    simp only [collectMap, List.filter]
    rcases hid : (fieldAt h b).id with _ | k
    · simp [idTruthy, ih]
    · by_cases hk : k = 0
      · subst hk; simp [idTruthy, ih]
      · have hk' : (k != 0) = true := by simpa using hk
        simp [idTruthy, hk', ih]

theorem collectMap_lookup_none_iff {h : List LayerField} {l : List Nat}
    {n : Nat} (hn : n ≠ 0) :
    lookupId n (collectMap h l).1 = none ↔
      ∀ a ∈ l, (fieldAt h a).id ≠ some n := by
  induction l with
  | nil =>
    simp [collectMap, lookupId]
  | cons b rest ih =>
    have hcons : (∀ a ∈ (b :: rest : List Nat), (fieldAt h a).id ≠ some n) ↔
        ((fieldAt h b).id ≠ some n ∧
          ∀ a ∈ rest, (fieldAt h a).id ≠ some n) := by
      constructor
      · intro hall
        exact ⟨hall b (List.mem_cons_self _ _),
          fun a ha => hall a (List.mem_cons_of_mem _ ha)⟩
      · rintro ⟨h1, h2⟩ a ha
        rcases List.mem_cons.mp ha with rfl | ha'
        · exact h1
        · exact h2 a ha'
    rw [hcons]
    simp only [collectMap]
    rcases hid : (fieldAt h b).id with _ | k
    · rw [ih]
      constructor
      · intro hall
        refine ⟨?_, hall⟩
        intro hc; cases hc
      · intro hp; exact hp.2
    · by_cases hk : k = 0
      · subst hk
        simp only [bne_self_eq_false, Bool.false_eq_true, if_false]
        rw [ih]
        constructor
        · intro hall
          refine ⟨?_, hall⟩
          intro hc
          injection hc with hc
          exact hn hc.symm
        · intro hp; exact hp.2
      · have hk' : (k != 0) = true := by simpa using hk
        simp only [hk', if_true, lookupId_cons]
        by_cases hkn : k = n
        · subst hkn
          simp only [if_pos rfl]
          constructor
          · intro hc; cases hc
          · rintro ⟨h1, _⟩
            exact absurd rfl h1
        · simp only [if_neg hkn]
          rw [ih]
          constructor
          · intro hall
            refine ⟨?_, hall⟩
            intro hc
            injection hc with hc
            exact hkn hc
          · intro hp; exact hp.2

theorem collectMap_lookup_self {h : List LayerField} {l : List Nat}
    {a n : Nat}
    (hnd : (l.map fun b => (fieldAt h b).id).Nodup)
    (ha : a ∈ l) (hid : (fieldAt h a).id = some n) (hn : n ≠ 0) :
    lookupId n (collectMap h l).1 = some a := by
  induction l with
  | nil => cases ha
  | cons b rest ih =>
    simp only [List.map, List.nodup_cons] at hnd
    obtain ⟨hbn, hnd'⟩ := hnd
    rcases List.mem_cons.mp ha with rfl | ha'
    · have hk' : (n != 0) = true := by simpa using hn
      simp only [collectMap, hid, hk', if_true, lookupId, if_pos rfl]
    · have hba : (fieldAt h b).id ≠ some n := by
        intro hc
        exact hbn (by
          rw [hc, ← hid]
          exact List.mem_map_of_mem _ ha')
      simp only [collectMap]
      rcases hidb : (fieldAt h b).id with _ | k
      · exact ih hnd' ha'
      · by_cases hk : k = 0
        · subst hk; simp only [bne_self_eq_false, Bool.false_eq_true,
            if_false]
          exact ih hnd' ha'
        · have hk' : (k != 0) = true := by simpa using hk
          have hkn : k ≠ n := by
            intro hc; subst hc
            exact hba hidb
          simp only [hk', if_true, lookupId, if_neg hkn]
          exact ih hnd' ha'

theorem collectMap_fst_snd_nodup {h : List LayerField} {l : List Nat}
    (hnd : l.Nodup) : ((collectMap h l).1.map Prod.snd).Nodup := by
  induction l with
  | nil => simp [collectMap]
  | cons b rest ih =>
    simp only [List.nodup_cons] at hnd
    obtain ⟨hb, hnd'⟩ := hnd
    simp only [collectMap]
    rcases hid : (fieldAt h b).id with _ | k
    · exact ih hnd'
    · by_cases hk : k = 0
      · subst hk; simp only [bne_self_eq_false, Bool.false_eq_true, if_false]
        exact ih hnd'
      · have hk' : (k != 0) = true := by simpa using hk
        simp only [hk', if_true, List.map, List.nodup_cons]
        refine ⟨?_, ih hnd'⟩
        intro hc
        rcases List.mem_map.mp hc with ⟨⟨n', a'⟩, hmem, hsnd⟩
        simp only at hsnd
        subst hsnd
        exact hb (collectMap_fst_mem hmem).1

theorem lookupId_injective {m : List (Nat × Nat)}
    (hnd : (m.map Prod.snd).Nodup) {n n' a : Nat}
    (h1 : lookupId n m = some a) (h2 : lookupId n' m = some a) : n = n' := by
  have m1 := lookupId_eq_some_mem h1
  have m2 := lookupId_eq_some_mem h2
  clear h1 h2
  induction m with
  | nil => cases m1
  | cons p rest ih =>
    obtain ⟨k, b⟩ := p
    simp only [List.map, List.nodup_cons] at hnd
    obtain ⟨hb, hnd'⟩ := hnd
    rcases List.mem_cons.mp m1 with h1 | h1 <;>
      rcases List.mem_cons.mp m2 with h2 | h2
    · injection h1 with e1 e2; injection h2 with e3 e4
      omega
    · injection h1 with e1 e2
      subst e2
      exact absurd (List.mem_map_of_mem Prod.snd h2) (by simpa using hb)
    · injection h2 with e3 e4
      subst e4
      exact absurd (List.mem_map_of_mem Prod.snd h1) (by simpa using hb)
    · exact ih hnd' h1 h2

theorem lookupId_lt_of_collectMap {h : List LayerField} {l : List Nat}
    (hv : ∀ a ∈ l, a < h.length) {n a : Nat}
    (hl : lookupId n (collectMap h l).1 = some a) : a < h.length :=
  hv a (collectMap_fst_mem (lookupId_eq_some_mem hl)).1

end CollectMapLemmas

section StepLemmas

theorem foldl_setter_nil (m : List (Nat × Nat)) (s : LayerState) :
    List.foldlM (setterStep m) s ([] : List FieldDesc) = Except.ok s := rfl

theorem foldl_setter_cons (m : List (Nat × Nat)) (s : LayerState)
    (d : FieldDesc) (v : List FieldDesc) :
    List.foldlM (setterStep m) s (d :: v) =
      match setterStep m s d with
      | Except.error e => Except.error e
      | Except.ok s1 => List.foldlM (setterStep m) s1 v := by
  rcases h : setterStep m s d with e | s1
  · rw [List.foldlM_cons, h]; rfl
  · rw [List.foldlM_cons, h]; rfl

theorem setter_unfold (s : LayerState) (v : List FieldDesc) :
    setter s v =
      (match List.foldlM (setterStep (collectMap s.heap s.fields).1)
          { heap := s.heap, fields := (collectMap s.heap s.fields).2,
            flf := none } v with
        | Except.error e => Except.error e
        | Except.ok s2 =>
          Except.ok { s2 with heap := reorderFrom s2.heap 0 s2.fields }) := by
  rw [setter]
  rcases h : List.foldlM (setterStep (collectMap s.heap s.fields).1)
      { heap := s.heap, fields := (collectMap s.heap s.fields).2,
        flf := none } v with e | s2
  · simp [h]
  · simp [h]

/-- Exhaustive description of one successful loop iteration. -/
theorem setterStep_ok_cases {m : List (Nat × Nat)} {s : LayerState}
    {d : FieldDesc} {s' : LayerState}
    (h : setterStep m s d = Except.ok s') :
    ∃ a, s'.fields = s.fields ++ [a] ∧
      s'.flf = (if d.label_field then some a else s.flf) ∧
      ((∃ n, d.id = some n ∧ n ≠ 0 ∧ lookupId n m = some a ∧
          s'.heap = s.heap.set a
            { applyFldUpdates (fieldAt s.heap a) d with
              idx := some s.fields.length }) ∨
       (idTruthy d.id = false ∧ a = s.heap.length ∧
          s'.heap = s.heap ++
            [{ applyFldUpdates (newField d) d with
               idx := some s.fields.length }])) := by
  rcases hd : d.id with _ | n
  · simp only [setterStep, hd, Except.ok.injEq] at h
    subst h
    exact ⟨s.heap.length, rfl, rfl, Or.inr ⟨by simp [idTruthy, hd], rfl, rfl⟩⟩
  · by_cases hn : n = 0
    · subst hn
      simp only [setterStep, hd, bne_self_eq_false, Bool.false_eq_true,
        if_false, Except.ok.injEq] at h
      subst h
      exact ⟨s.heap.length, rfl, rfl,
        Or.inr ⟨by simp [idTruthy, hd], rfl, rfl⟩⟩
    · have hn' : (n != 0) = true := by simpa using hn
      simp only [setterStep, hd, hn', if_true] at h
      rcases hl : lookupId n m with _ | a
      · rw [hl] at h; cases h
      · rw [hl] at h
        simp only [Except.ok.injEq] at h
        subst h
        exact ⟨a, rfl, rfl, Or.inl ⟨n, rfl, hn, hl, rfl⟩⟩

/-- One loop iteration raises exactly when the descriptor carries a nonzero
id that is absent from `fldmap`. -/
theorem setterStep_error_iff {m : List (Nat × Nat)} {s : LayerState}
    {d : FieldDesc} :
    (∃ e, setterStep m s d = Except.error e) ↔
      ∃ n, d.id = some n ∧ n ≠ 0 ∧ lookupId n m = none := by
  rcases hd : d.id with _ | n
  · simp only [setterStep, hd]
    constructor
    · rintro ⟨e, he⟩; cases he
    · rintro ⟨n, hn, -, -⟩; cases hn
  · by_cases hn : n = 0
    · subst hn
      simp only [setterStep, hd, bne_self_eq_false, Bool.false_eq_true,
        if_false]
      constructor
      · rintro ⟨e, he⟩; cases he
      · rintro ⟨k, hk, hk0, -⟩
        injection hk with hk
        exact absurd hk.symm hk0
    · have hn' : (n != 0) = true := by simpa using hn
      simp only [setterStep, hd, hn', if_true]
      rcases hl : lookupId n m with _ | a
      · constructor
        · intro _; exact ⟨n, rfl, hn, hl⟩
        · intro _; exact ⟨ValidationError.fieldNotFound n, rfl⟩
      · constructor
        · rintro ⟨e, he⟩; cases he
        · rintro ⟨k, hk, hk0, hkl⟩
          injection hk with hk
          subst hk
          rw [hl] at hkl; cases hkl

/-- The whole loop raises exactly when some submitted descriptor carries a
nonzero id absent from `fldmap`; the loop's running state never affects the
lookup. -/
theorem foldl_setter_error_iff {m : List (Nat × Nat)} {v : List FieldDesc} :
    ∀ {s : LayerState},
      (∃ e, List.foldlM (setterStep m) s v = Except.error e) ↔
        ∃ d ∈ v, ∃ n, d.id = some n ∧ n ≠ 0 ∧ lookupId n m = none := by
  induction v with
  | nil =>
    intro s
    simp only [foldl_setter_nil]
    constructor
    · rintro ⟨e, he⟩; cases he
    · rintro ⟨d, hd, -⟩; cases hd
  | cons d v ih =>
    intro s
    rw [foldl_setter_cons]
    rcases h : setterStep m s d with e | s1
    · constructor
      · intro _
        obtain ⟨n, hn, hn0, hl⟩ := setterStep_error_iff.mp ⟨e, h⟩
        exact ⟨d, List.mem_cons_self _ _, n, hn, hn0, hl⟩
      · intro _; exact ⟨e, rfl⟩
    · rw [ih]
      constructor
      · rintro ⟨d', hd', hrest⟩
        exact ⟨d', List.mem_cons_of_mem _ hd', hrest⟩
      · rintro ⟨d', hd', n, hn, hn0, hl⟩
        rcases List.mem_cons.mp hd' with rfl | hd''
        · exfalso
          obtain ⟨e, he⟩ := setterStep_error_iff.mpr ⟨n, hn, hn0, hl⟩
          rw [he] at h; cases h
        · exact ⟨d', hd'', n, hn, hn0, hl⟩

/-- A successful loop run appends one address per descriptor and leaves
`feature_label_field` pointing at the field of the last descriptor submitted
with `label_field` set, if any. -/
theorem foldl_setter_fields_flf {m : List (Nat × Nat)} {v : List FieldDesc} :
    ∀ {s s' : LayerState},
      List.foldlM (setterStep m) s v = Except.ok s' →
      ∃ l, s'.fields = s.fields ++ l ∧ l.length = v.length ∧
        s'.flf = lastLabel s.flf (l.zip v) := by
  induction v with
  | nil =>
    intro s s' h
    rw [foldl_setter_nil] at h
    injection h with h
    subst h
    exact ⟨[], by simp, rfl, rfl⟩
  | cons d v ih =>
    intro s s' h
    rw [foldl_setter_cons] at h
    rcases hs : setterStep m s d with e | s1
    · rw [hs] at h; cases h
    · rw [hs] at h
      obtain ⟨a, hf, hflf, -⟩ := setterStep_ok_cases hs
      obtain ⟨l, hl1, hl2, hl3⟩ := ih h
      refine ⟨a :: l, ?_, by simp [hl2], ?_⟩
      · rw [hl1, hf]; simp
      · rw [hl3]
        simp only [List.zip_cons_cons, lastLabel]
        rw [hflf]
        rfl

end StepLemmas

section ReorderLemmas

theorem reorderFrom_length (fields : List Nat) :
    ∀ (h : List LayerField) (i : Nat),
      (reorderFrom h i fields).length = h.length := by
  induction fields with
  | nil => intro h i; rfl
  | cons a rest ih =>
    intro h i
    rw [reorderFrom, ih]
    exact List.length_set h a _

theorem fieldAt_reorderFrom_not_mem (fields : List Nat) :
    ∀ (h : List LayerField) (i b : Nat), b ∉ fields →
      fieldAt (reorderFrom h i fields) b = fieldAt h b := by
  induction fields with
  | nil => intro h i b _; rfl
  | cons a rest ih =>
    intro h i b hb
    rw [reorderFrom, ih _ _ _ (fun hc => hb (List.mem_cons_of_mem _ hc))]
    exact fieldAt_set_ne h a b _ fun hc => hb (hc ▸ List.mem_cons_self _ _)

theorem fieldAt_reorderFrom_get (fields : List Nat) :
    ∀ (h : List LayerField) (i : Nat), fields.Nodup →
      (∀ b ∈ fields, b < h.length) →
      ∀ (j a : Nat), fields.get? j = some a →
        fieldAt (reorderFrom h i fields) a =
          { fieldAt h a with idx := some (i + j) } := by
  induction fields with
  | nil => intro h i _ _ j a hj; cases hj
  | cons a0 rest ih =>
    intro h i hnd hb j a hj
    obtain ⟨h0rest, hndrest⟩ := List.nodup_cons.mp hnd
    rw [reorderFrom]
    cases j with
    | zero =>
      injection hj with hj
      subst hj
      rw [fieldAt_reorderFrom_not_mem rest _ _ _ h0rest,
        fieldAt_set_self h a0 _ (hb a0 (List.mem_cons_self _ _))]
      rfl
    | succ j =>
      have ha : a ∈ rest := List.get?_mem hj
      have hne : a ≠ a0 := fun hc => h0rest (hc ▸ ha)
      have hidx : i + 1 + j = i + (j + 1) := by omega
      rw [ih _ (i + 1) hndrest
          (fun b hbr => by
            rw [List.length_set]
            exact hb b (List.mem_cons_of_mem _ hbr)) j a hj,
        fieldAt_set_ne h a0 a _ hne, hidx]

theorem reorderFrom_self (fields : List Nat) :
    ∀ (h : List LayerField) (i : Nat),
      (∀ j a, fields.get? j = some a →
        (fieldAt h a).idx = some (i + j) ∧ a < h.length) →
      reorderFrom h i fields = h := by
  induction fields with
  | nil => intro h i _; rfl
  | cons a0 rest ih =>
    intro h i hinv
    obtain ⟨hidx, hlt⟩ := hinv 0 a0 rfl
    have heq : ({ fieldAt h a0 with idx := some i } : LayerField) =
        fieldAt h a0 := by
      have : i + 0 = i := rfl
      rw [this] at hidx
      cases hf : fieldAt h a0
      simp only [hf] at hidx
      simp [hidx]
    rw [reorderFrom, heq, set_fieldAt_self]
    exact ih h (i + 1) fun j a hj => by
      obtain ⟨h1, h2⟩ := hinv (j + 1) a hj
      refine ⟨?_, h2⟩
      rw [h1]
      congr 1
      omega

end ReorderLemmas

section DescIdsLemmas

theorem descIds_cons_truthy {d : FieldDesc} {v : List FieldDesc} {n : Nat}
    (hd : d.id = some n) (hn : n ≠ 0) :
    descIds (d :: v) = n :: descIds v := by
  simp [descIds, List.filterMap_cons, hd, hn]

theorem descIds_cons_falsy {d : FieldDesc} {v : List FieldDesc}
    (hd : idTruthy d.id = false) : descIds (d :: v) = descIds v := by
  rcases hid : d.id with _ | n
  · simp [descIds, List.filterMap_cons, hid]
  · rw [hid] at hd
    have hn : n = 0 := by simpa [idTruthy] using hd
    subst hn
    simp [descIds, List.filterMap_cons, hid]

theorem mem_descIds {v : List FieldDesc} {d : FieldDesc} {n : Nat}
    (hd : d ∈ v) (hid : d.id = some n) (hn : n ≠ 0) : n ∈ descIds v := by
  induction v with
  | nil => cases hd
  | cons d0 v ih =>
    rcases List.mem_cons.mp hd with rfl | hd'
    · rw [descIds_cons_truthy hid hn]
      exact List.mem_cons_self _ _
    · rcases hid0 : d0.id with _ | k
      · rw [descIds_cons_falsy (by simp [idTruthy, hid0])]
        exact ih hd'
      · by_cases hk : k = 0
        · subst hk
          rw [descIds_cons_falsy (by simp [idTruthy, hid0])]
          exact ih hd'
        · rw [descIds_cons_truthy hid0 hk]
          exact List.mem_cons_of_mem _ (ih hd')

theorem idTruthy_false_of_some {o : Option Nat} {n : Nat}
    (ho : o = some n) (h : idTruthy o = false) : n = 0 := by
  subst ho
  simpa [idTruthy] using h

end DescIdsLemmas

section CleanRunLemmas

/-- Characterisation of a successful setter loop over clean input: the
`fldmap` addresses are bounded by the original heap and carry pairwise
distinct addresses, the submitted nonzero ids are pairwise distinct, and no
matched address is already in the collection.  The conclusions describe the
final collection and every final field object, before the trailing
`reorder()`. -/
theorem foldl_setter_clean (m : List (Nat × Nat)) (h0 : List LayerField)
    (hmlt : ∀ n a, lookupId n m = some a → a < h0.length)
    (hminj : ∀ n n' a, lookupId n m = some a → lookupId n' m = some a →
      n = n') :
    ∀ (v : List FieldDesc) (t t' : LayerState),
      h0.length ≤ t.heap.length →
      (∀ d ∈ v, ∀ n a, d.id = some n → n ≠ 0 → lookupId n m = some a →
        fieldAt t.heap a = fieldAt h0 a ∧ a ∉ t.fields) →
      (descIds v).Nodup →
      t.fields.Nodup →
      (∀ b ∈ t.fields, b < t.heap.length) →
      List.foldlM (setterStep m) t v = Except.ok t' →
      t.heap.length ≤ t'.heap.length ∧
      t'.fields.Nodup ∧
      (∀ b ∈ t'.fields, b < t'.heap.length) ∧
      (∃ l, t'.fields = t.fields ++ l ∧ l.length = v.length ∧
        (∀ j d, v.get? j = some d → ∃ a, l.get? j = some a ∧
          ((∃ n, d.id = some n ∧ n ≠ 0 ∧ lookupId n m = some a ∧
              fieldAt t'.heap a =
                { applyFldUpdates (fieldAt h0 a) d with
                  idx := some (t.fields.length + j) }) ∨
           (idTruthy d.id = false ∧ t.heap.length ≤ a ∧
              fieldAt t'.heap a =
                { applyFldUpdates (newField d) d with
                  idx := some (t.fields.length + j) }))) ∧
        (∀ a ∈ l, a < h0.length →
          ∃ d ∈ v, ∃ n, d.id = some n ∧ n ≠ 0 ∧ lookupId n m = some a) ∧
        (∀ b, (∃ d ∈ v, ∃ n, d.id = some n ∧ n ≠ 0 ∧
            lookupId n m = some b) → b ∈ l)) ∧
      (∀ b, b < t.heap.length →
        (∀ d ∈ v, ∀ n, d.id = some n → n ≠ 0 → lookupId n m ≠ some b) →
        fieldAt t'.heap b = fieldAt t.heap b) := by
  intro v
  induction v with
  | nil =>
    intro t t' hlen hfu hdid hnd hb h
    rw [foldl_setter_nil] at h
    injection h with h
    subst h
    refine ⟨Nat.le_refl _, hnd, hb, ⟨[], by simp, rfl, ?_, ?_, ?_⟩, ?_⟩
    · intro j d hj; cases hj
    · intro a ha _; cases ha
    · rintro b ⟨d, hd, -⟩; cases hd
    · intro b _ _; rfl
  | cons d v ih =>
    intro t t' hlen hfu hdid hnd hb h
    rw [foldl_setter_cons] at h
    rcases hs : setterStep m t d with e | s1
    · rw [hs] at h; cases h
    · rw [hs] at h
      obtain ⟨a, hf, hflf, hcase⟩ := setterStep_ok_cases hs
      have hs1len : t.heap.length ≤ s1.heap.length := by
        rcases hcase with ⟨n, -, -, -, hheap⟩ | ⟨-, -, hheap⟩
        · rw [hheap, List.length_set]
        · rw [hheap, List.length_append]
          exact Nat.le_add_right _ _
      have halt : a < s1.heap.length := by
        rcases hcase with ⟨n, -, -, hln, hheap⟩ | ⟨-, ha, hheap⟩
        · rw [hheap, List.length_set]
          exact Nat.lt_of_lt_of_le (hmlt n a hln) hlen
        · rw [hheap, List.length_append, ha]
          simp
      have hanotin : a ∉ t.fields := by
        rcases hcase with ⟨n, hdn, hn0, hln, -⟩ | ⟨-, ha, -⟩
        · exact (hfu d (List.mem_cons_self _ _) n a hdn hn0 hln).2
        · intro hc
          exact absurd (hb a hc) (by rw [ha]; exact Nat.lt_irrefl _)
      have hpres : ∀ b, b < t.heap.length → b ≠ a →
          fieldAt s1.heap b = fieldAt t.heap b := by
        intro b hblt hba
        rcases hcase with ⟨n, -, -, -, hheap⟩ | ⟨-, -, hheap⟩
        · rw [hheap]; exact fieldAt_set_ne _ _ _ _ hba
        · rw [hheap]; exact fieldAt_append_lt _ _ _ hblt
      have hfut_ne : ∀ d' ∈ v, ∀ n' a', d'.id = some n' → n' ≠ 0 →
          lookupId n' m = some a' → a' ≠ a := by
        intro d' hd' n' a' hdn' hn0' hln' hc
        subst hc
        rcases hcase with ⟨n, hdn, hn0, hln, -⟩ | ⟨-, ha, -⟩
        · have hne : n' ≠ n := by
            rw [descIds_cons_truthy hdn hn0] at hdid
            have hmem := mem_descIds hd' hdn' hn0'
            intro hc'
            subst hc'
            exact (List.nodup_cons.mp hdid).1 hmem
          exact hne (hminj n' n a' hln' hln)
        · have := hmlt n' a' hln'
          omega
      have hheapAt_a : ∀ n, d.id = some n → n ≠ 0 →
          fieldAt s1.heap a =
            { applyFldUpdates (fieldAt h0 a) d with
              idx := some t.fields.length } := by
        intro n hdn hn0
        rcases hcase with ⟨n', hdn', -, hln', hheap⟩ | ⟨hfal, -, -⟩
        · rw [hdn] at hdn'
          injection hdn' with hdn'
          subst hdn'
          have halt0 : a < t.heap.length :=
            Nat.lt_of_lt_of_le (hmlt n a hln') hlen
          rw [hheap, fieldAt_set_self _ _ _ halt0,
            (hfu d (List.mem_cons_self _ _) n a hdn hn0 hln').1]
        · exact absurd (idTruthy_false_of_some hdn hfal) hn0
      have hheapAt_a' : idTruthy d.id = false →
          fieldAt s1.heap a =
            { applyFldUpdates (newField d) d with
              idx := some t.fields.length } := by
        intro hfal
        rcases hcase with ⟨n', hdn', hn0', -, -⟩ | ⟨-, ha, hheap⟩
        · exact absurd (idTruthy_false_of_some hdn' hfal) hn0'
        · rw [hheap, ha]
          exact fieldAt_append_self _ _
      -- invariants for the recursive call
      have hfu1 : ∀ d' ∈ v, ∀ n' a', d'.id = some n' → n' ≠ 0 →
          lookupId n' m = some a' →
          fieldAt s1.heap a' = fieldAt h0 a' ∧ a' ∉ s1.fields := by
        intro d' hd' n' a' hdn' hn0' hln'
        have hane := hfut_ne d' hd' n' a' hdn' hn0' hln'
        have hlt' : a' < h0.length := hmlt n' a' hln'
        obtain ⟨he, hm⟩ :=
          hfu d' (List.mem_cons_of_mem _ hd') n' a' hdn' hn0' hln'
        refine ⟨?_, ?_⟩
        · rw [hpres a' (Nat.lt_of_lt_of_le hlt' hlen) hane, he]
        · rw [hf]
          intro hc
          rcases List.mem_append.mp hc with hc' | hc'
          · exact hm hc'
          · exact hane (List.mem_singleton.mp hc')
      have hdid1 : (descIds v).Nodup := by
        rcases hcase with ⟨n, hdn, hn0, -, -⟩ | ⟨hfal, -, -⟩
        · rw [descIds_cons_truthy hdn hn0] at hdid
          exact (List.nodup_cons.mp hdid).2
        · rwa [descIds_cons_falsy hfal] at hdid
      have hnd1 : s1.fields.Nodup := by
        rw [hf]
        rw [List.nodup_append]
        refine ⟨hnd, List.nodup_singleton a, ?_⟩
        intro b hbmem hbmem'
        rw [List.mem_singleton] at hbmem'
        subst hbmem'
        exact hanotin hbmem
      have hb1 : ∀ b ∈ s1.fields, b < s1.heap.length := by
        intro b hbm
        rw [hf] at hbm
        rcases List.mem_append.mp hbm with hbm' | hbm'
        · exact Nat.lt_of_lt_of_le (hb b hbm') hs1len
        · rw [List.mem_singleton] at hbm'
          subst hbm'
          exact halt
      obtain ⟨ihlen, ihnd, ihb, ⟨l', hl1, hl2, hlj, hlold, hlin⟩, ihun⟩ :=
        ih s1 t' (Nat.le_trans hlen hs1len) hfu1 hdid1 hnd1 hb1 h
      have hslen : s1.fields.length = t.fields.length + 1 := by
        rw [hf, List.length_append]; rfl
      have ha_final : fieldAt t'.heap a = fieldAt s1.heap a := by
        refine ihun a halt ?_
        intro d' hd' n' hdn' hn0' hc
        exact hfut_ne d' hd' n' a hdn' hn0' hc rfl
      refine ⟨Nat.le_trans hs1len ihlen, ihnd, ihb,
        ⟨a :: l', ?_, by simp [hl2], ?_, ?_, ?_⟩, ?_⟩
      · rw [hl1, hf]; simp
      · -- positional characterisation
        intro j d' hj
        cases j with
        | zero =>
          injection hj with hj
          subst hj
          refine ⟨a, rfl, ?_⟩
          rcases hcase with ⟨n, hdn, hn0, hln, -⟩ | ⟨hfal, hafr, -⟩
          · exact Or.inl ⟨n, hdn, hn0, hln, by
              rw [ha_final, hheapAt_a n hdn hn0]; rfl⟩
          · exact Or.inr ⟨hfal, by omega, by
              rw [ha_final, hheapAt_a' hfal]; rfl⟩
        | succ j =>
          obtain ⟨a', ha'g, hcase'⟩ := hlj j d' hj
          refine ⟨a', ha'g, ?_⟩
          have harith : s1.fields.length + j = t.fields.length + (j + 1) := by
            omega
          rcases hcase' with ⟨n', h1, h2, h3, h4⟩ | ⟨h1, h2, h3⟩
          · exact Or.inl ⟨n', h1, h2, h3, by rw [h4, harith]⟩
          · exact Or.inr ⟨h1, Nat.le_trans hs1len h2, by
              rw [h3, harith]⟩
      · -- old addresses in the result were matched
        intro a' ha'm ha'lt
        rcases List.mem_cons.mp ha'm with rfl | ha'm'
        · rcases hcase with ⟨n, hdn, hn0, hln, -⟩ | ⟨-, hafr, -⟩
          · exact ⟨d, List.mem_cons_self _ _, n, hdn, hn0, hln⟩
          · exfalso; omega
        · obtain ⟨d', hd', hrest⟩ := hlold a' ha'm' ha'lt
          exact ⟨d', List.mem_cons_of_mem _ hd', hrest⟩
      · -- every matched address lands in the result
        rintro b ⟨d', hd', n', hdn', hn0', hln'⟩
        rcases List.mem_cons.mp hd' with rfl | hd''
        · rcases hcase with ⟨n, hdn, hn0, hln, -⟩ | ⟨hfal, -, -⟩
          · rw [hdn] at hdn'
            injection hdn' with hdn'
            subst hdn'
            rw [hln] at hln'
            injection hln' with hln'
            subst hln'
            exact List.mem_cons_self _ _
          · exact absurd (idTruthy_false_of_some hdn' hfal) hn0'
        · exact List.mem_cons_of_mem _
            (hlin b ⟨d', hd'', n', hdn', hn0', hln'⟩)
      · -- untouched objects
        intro b hblt hnob
        have hba : b ≠ a := by
          rcases hcase with ⟨n, hdn, hn0, hln, -⟩ | ⟨-, hafr, -⟩
          · intro hc
            subst hc
            exact hnob d (List.mem_cons_self _ _) n hdn hn0 hln
          · omega
        rw [ihun b (Nat.lt_of_lt_of_le hblt hs1len)
            (fun d' hd' n' hdn' hn0' =>
              hnob d' (List.mem_cons_of_mem _ hd') n' hdn' hn0'),
          hpres b hblt hba]

end CleanRunLemmas

section SetterLemmas

theorem setter_ok_elim {s : LayerState} {v : List FieldDesc}
    {s' : LayerState} (h : setter s v = Except.ok s') :
    ∃ s2, List.foldlM (setterStep (collectMap s.heap s.fields).1)
        { heap := s.heap, fields := (collectMap s.heap s.fields).2,
          flf := none } v = Except.ok s2 ∧
      s' = { s2 with heap := reorderFrom s2.heap 0 s2.fields } := by
  rw [setter_unfold] at h
  rcases hx : List.foldlM (setterStep (collectMap s.heap s.fields).1)
      { heap := s.heap, fields := (collectMap s.heap s.fields).2,
        flf := none } v with e | s2
  · rw [hx] at h; cases h
  · rw [hx] at h
    injection h with h
    exact ⟨s2, rfl, h.symm⟩

theorem setter_error_elim {s : LayerState} {v : List FieldDesc}
    {e : ValidationError} (h : setter s v = Except.error e) :
    List.foldlM (setterStep (collectMap s.heap s.fields).1)
      { heap := s.heap, fields := (collectMap s.heap s.fields).2,
        flf := none } v = Except.error e := by
  rw [setter_unfold] at h
  rcases hx : List.foldlM (setterStep (collectMap s.heap s.fields).1)
      { heap := s.heap, fields := (collectMap s.heap s.fields).2,
        flf := none } v with e' | s2
  · rw [hx] at h
    injection h with h
    rw [h]
  · rw [hx] at h; cases h

theorem collectMap_snd_nil_of_truthy {h : List LayerField} {l : List Nat}
    (htr : ∀ a ∈ l, idTruthy (fieldAt h a).id = true) :
    (collectMap h l).2 = [] := by
  rw [collectMap_snd_eq]
  rw [List.filter_eq_nil_iff]
  intro a ha
  rw [htr a ha]
  intro hc; cases hc

theorem idTruthy_eq_true {o : Option Nat} (h : idTruthy o = true) :
    ∃ n, o = some n ∧ n ≠ 0 := by
  rcases o with _ | n
  · cases h
  · exact ⟨n, rfl, by simpa [idTruthy] using h⟩

theorem flfAfter_nil (z : Option Nat) : flfAfter z [] = none := by
  rcases z with _ | a
  · rfl
  · simp [flfAfter]

theorem flfAfter_snoc (z : Option Nat) (pre : List Nat) (a : Nat) :
    (if z = some a then some a else flfAfter z pre) =
      flfAfter z (pre ++ [a]) := by
  rcases z with _ | a0
  · simp [flfAfter]
  · by_cases hz : a0 = a
    · subst hz
      simp [flfAfter]
    · rw [if_neg (fun hc : some a0 = some a => hz (by injection hc))]
      simp only [flfAfter, List.mem_append, List.mem_singleton]
      by_cases hm : a0 ∈ pre
      · rw [if_pos hm, if_pos (Or.inl hm)]
      · rw [if_neg hm, if_neg ?_]
        rintro (hc | hc)
        · exact hm hc
        · exact hz hc

theorem flfAfter_full {z : Option Nat} {l : List Nat}
    (h : z = none ∨ ∃ a ∈ l, z = some a) : flfAfter z l = z := by
  rcases h with rfl | ⟨a, ha, rfl⟩
  · rfl
  · simp [flfAfter, ha]

theorem zip_get? {α β : Type} (l : List α) (w : List β) :
    ∀ (j : Nat) (a : α) (d : β), l.get? j = some a → w.get? j = some d →
      (l.zip w).get? j = some (a, d) := by
  induction l generalizing w with
  | nil => intro j a d hj; cases hj
  | cons x l ih =>
    intro j a d hj hw
    rcases w with _ | ⟨y, w⟩
    · cases hw
    · cases j with
      | zero =>
        injection hj with hj
        injection hw with hw
        subst hj; subst hw
        rfl
      | succ j =>
        exact ih w j a d hj hw

theorem zip_get?_right {α β : Type} (l : List α) (w : List β) :
    ∀ (j : Nat) (p : α × β), (l.zip w).get? j = some p →
      w.get? j = some p.2 := by
  induction l generalizing w with
  | nil => intro j p hj; cases hj
  | cons x l ih =>
    intro j p hj
    rcases w with _ | ⟨y, w⟩
    · cases hj
    · cases j with
      | zero =>
        injection hj with hj
        subst hj
        rfl
      | succ j =>
        exact ih w j p hj

theorem lastLabel_eq_init {lst : List (Nat × FieldDesc)} :
    ∀ {z : Option Nat}, (∀ p ∈ lst, p.2.label_field = false) →
      lastLabel z lst = z := by
  induction lst with
  | nil => intro z _; rfl
  | cons p rest ih =>
    intro z hall
    obtain ⟨a, d⟩ := p
    have hd : d.label_field = false := hall (a, d) (List.mem_cons_self _ _)
    rw [lastLabel, hd]
    exact ih fun q hq => hall q (List.mem_cons_of_mem _ hq)

theorem lastLabel_unique {lst : List (Nat × FieldDesc)} :
    ∀ {z : Option Nat} {p : Nat} {a : Nat} {d : FieldDesc},
      lst.get? p = some (a, d) → d.label_field = true →
      (∀ q x, lst.get? q = some x → x.2.label_field = true → q = p) →
      lastLabel z lst = some a := by
  induction lst with
  | nil => intro z p a d hp; cases hp
  | cons x rest ih =>
    intro z p a d hp hd huniq
    obtain ⟨a0, d0⟩ := x
    cases p with
    | zero =>
      injection hp with hp
      rw [Prod.mk.injEq] at hp
      obtain ⟨rfl, rfl⟩ := hp
      rw [lastLabel, hd]
      refine lastLabel_eq_init ?_
      intro q hq
      obtain ⟨j, hj⟩ := List.get?_of_mem hq
      by_contra hc
      have : j + 1 = 0 := huniq (j + 1) q hj (by
        cases hbool : q.2.label_field
        · exact absurd hbool hc
        · rfl)
      cases this
    | succ p =>
      have hd0 : d0.label_field = false := by
        by_contra hc
        have : 0 = p + 1 := huniq 0 (a0, d0) rfl (by
          cases hbool : d0.label_field
          · exact absurd hbool hc
          · rfl)
        cases this
      rw [lastLabel, hd0]
      exact ih hp hd fun q x hq hx => by
        have := huniq (q + 1) x hq hx
        omega

end SetterLemmas

section RoundTripLemmas

theorem setterStep_matched {m : List (Nat × Nat)} {s : LayerState}
    {d : FieldDesc} {n a : Nat} (hdn : d.id = some n) (hn0 : n ≠ 0)
    (hl : lookupId n m = some a) :
    setterStep m s d = Except.ok
      { heap := s.heap.set a
          { applyFldUpdates (fieldAt s.heap a) d with
            idx := some s.fields.length },
        fields := s.fields ++ [a],
        flf := if d.label_field then some a else s.flf } := by
  have hn' : (n != 0) = true := by simpa using hn0
  simp only [setterStep, hdn, hn', if_true, hl]

theorem applyFldUpdates_read (f : LayerField) (i : Option Nat) (ty : String)
    (lb : Bool) :
    applyFldUpdates f
      { id := i, keyname := some f.keyname, datatype := ty,
        display_name := some f.display_name,
        grid_visibility := some f.grid_visibility, label_field := lb } = f := by
  cases f; rfl

theorem layerField_eta_idx {f : LayerField} {x : Option Nat}
    (h : f.idx = x) : ({ f with idx := x } : LayerField) = f := by
  cases f
  dsimp only at h
  subst h
  rfl

theorem get?_append_self {α : Type} (pre : List α) (a : α) (suf : List α) :
    (pre ++ a :: suf).get? pre.length = some a := by
  induction pre with
  | nil => rfl
  | cons x pre ih => exact ih

/-- Replaying a suffix of the getter payload extends the rebuilt collection
by exactly that suffix and leaves the heap untouched. -/
theorem roundtrip_fold (s : LayerState)
    (htr : ∀ a ∈ s.fields, idTruthy (fieldAt s.heap a).id = true)
    (hids : (s.fields.map fun a => (fieldAt s.heap a).id).Nodup)
    (hidx : ∀ j a, s.fields.get? j = some a →
      (fieldAt s.heap a).idx = some j) :
    ∀ (suf pre : List Nat), s.fields = pre ++ suf →
      List.foldlM (setterStep (collectMap s.heap s.fields).1)
        { heap := s.heap, fields := pre, flf := flfAfter s.flf pre }
        (suf.map fun a => readToDesc (readField s a)) =
      Except.ok
        { heap := s.heap, fields := pre ++ suf,
          flf := flfAfter s.flf (pre ++ suf) } := by
  intro suf
  induction suf with
  | nil =>
    intro pre hsplit
    rw [List.map_nil, foldl_setter_nil, List.append_nil]
  | cons a suf ih =>
    intro pre hsplit
    have ha_mem : a ∈ s.fields := by
      rw [hsplit]
      exact List.mem_append.mpr (Or.inr (List.mem_cons_self _ _))
    obtain ⟨n, hid, hn0⟩ := idTruthy_eq_true (htr a ha_mem)
    have hdn : (readToDesc (readField s a)).id = (fieldAt s.heap a).id := rfl
    have hlook : lookupId n (collectMap s.heap s.fields).1 = some a :=
      collectMap_lookup_self hids ha_mem hid hn0
    rw [List.map_cons, foldl_setter_cons,
      setterStep_matched (hdn.trans hid) hn0 hlook]
    have hupd : applyFldUpdates (fieldAt s.heap a)
        (readToDesc (readField s a)) = fieldAt s.heap a :=
      applyFldUpdates_read _ _ _ _
    have hpos : s.fields.get? pre.length = some a := by
      rw [hsplit]
      exact get?_append_self pre a suf
    have hobj : ({ applyFldUpdates (fieldAt s.heap a)
        (readToDesc (readField s a)) with
        idx := some pre.length } : LayerField) = fieldAt s.heap a := by
      rw [hupd]
      exact layerField_eta_idx (hidx pre.length a hpos)
    have hlabel : (if (readToDesc (readField s a)).label_field then some a
        else flfAfter s.flf pre) = flfAfter s.flf (pre ++ [a]) := by
      rw [← flfAfter_snoc]
      have hlb : (readToDesc (readField s a)).label_field =
          decide (s.flf = some a) := rfl
      rw [hlb]
      by_cases hP : s.flf = some a
      · rw [if_pos (decide_eq_true hP), if_pos hP]
      · have hd : ¬(decide (s.flf = some a) = true) := by
          intro hc
          exact hP (of_decide_eq_true hc)
        rw [if_neg hd, if_neg hP]
    simp only [hobj, hlabel, set_fieldAt_self]
    have := ih (pre ++ [a]) (by rw [hsplit]; simp)
    rw [this]
    rw [List.append_assoc]
    rfl

end RoundTripLemmas

section MoreHelperLemmas

theorem idx_update_update (f : LayerField) (p q : Option Nat) :
    ({ { f with idx := p } with idx := q } : LayerField) =
      { f with idx := q } := by
  cases f; rfl

theorem get?_append_length_add {α : Type} (l1 l2 : List α) :
    ∀ j, (l1 ++ l2).get? (l1.length + j) = l2.get? j := by
  induction l1 with
  | nil => intro j; simp
  | cons x l1 ih =>
    intro j
    have : x :: l1 ++ l2 = x :: (l1 ++ l2) := rfl
    rw [this]
    have harith : (x :: l1).length + j = (l1.length + j) + 1 := by
      simp [List.length_cons]
      omega
    rw [harith]
    exact ih j

theorem lt_length_of_get?_eq_some {α : Type} {l : List α} {j : Nat} {a : α}
    (h : l.get? j = some a) : j < l.length := by
  by_contra hc
  rw [List.get?_eq_none.mpr (Nat.le_of_not_lt hc)] at h
  cases h

theorem get?_is_some_of_lt {α : Type} {l : List α} {j : Nat}
    (h : j < l.length) : ∃ a, l.get? j = some a := by
  rcases hq : l.get? j with _ | a
  · rw [List.get?_eq_none] at hq
    omega
  · exact ⟨a, rfl⟩

/-- A descriptor whose `id` key holds the falsy value `0` takes exactly the
same branch as one with no id at all. -/
theorem setterStep_zero_id (m : List (Nat × Nat)) (s : LayerState)
    (d : FieldDesc) :
    setterStep m s { d with id := some 0 } =
      setterStep m s { d with id := none } := rfl

theorem foldl_setter_zero_id (m : List (Nat × Nat)) (d : FieldDesc)
    (v2 : List FieldDesc) :
    ∀ (v1 : List FieldDesc) (t : LayerState),
      List.foldlM (setterStep m) t (v1 ++ { d with id := some 0 } :: v2) =
      List.foldlM (setterStep m) t (v1 ++ { d with id := none } :: v2) := by
  intro v1
  induction v1 with
  | nil =>
    intro t
    rw [List.nil_append, List.nil_append, foldl_setter_cons,
      foldl_setter_cons, setterStep_zero_id]
  | cons x v1 ih =>
    intro t
    rw [List.cons_append, List.cons_append, foldl_setter_cons,
      foldl_setter_cons]
    rcases hx : setterStep m t x with e | t1
    · rfl
    · exact ih t1

end MoreHelperLemmas

end FeatureLayer

namespace PyramidComp

section DictLemmas

theorem lookup_cons (k a b : String) (rest : List (String × String)) :
    ((a, b) :: rest).lookup k =
      if k == a then some b else rest.lookup k := by
  rcases h : k == a
  · simp [List.lookup, h]
  · simp [List.lookup, h]

theorem dictSet_lookup_self (d : List (String × String)) (k v : String) :
    (dictSet d k v).lookup k = some v := by
  rw [dictSet, lookup_cons, if_pos (beq_self_eq_true k)]

theorem lookup_filter_ne (k k' : String) (hk : k' ≠ k) :
    ∀ d : List (String × String),
      (d.filter fun p => p.1 != k).lookup k' = d.lookup k' := by
  intro d
  induction d with
  | nil => rfl
  | cons p rest ih =>
    obtain ⟨a, b⟩ := p
    by_cases hak : a = k
    · subst hak
      rw [List.filter_cons_of_neg (by simp), lookup_cons,
        if_neg (fun hc => hk (eq_of_beq hc))]
      exact ih
    · rw [List.filter_cons_of_pos (by simpa using hak), lookup_cons,
        lookup_cons]
      rcases hke : k' == a
      · simp only [Bool.false_eq_true, if_false]
        exact ih
      · rfl

theorem dictSet_lookup_ne (d : List (String × String)) (k v k' : String)
    (hk : k' ≠ k) : (dictSet d k v).lookup k' = d.lookup k' := by
  rw [dictSet, lookup_cons, if_neg (fun hc => hk (eq_of_beq hc))]
  exact lookup_filter_ne k k' hk d

theorem dictMerge_nil (base : List (String × String)) :
    dictMerge base [] = base := rfl

theorem dictMerge_cons (base : List (String × String)) (k v : String)
    (rest : List (String × String)) :
    dictMerge base ((k, v) :: rest) = dictMerge (dictSet base k v) rest :=
  rfl

theorem dictMerge_lookup_not_mem (k : String) :
    ∀ (upd base : List (String × String)),
      (∀ p ∈ upd, p.1 ≠ k) →
      (dictMerge base upd).lookup k = base.lookup k := by
  intro upd
  induction upd with
  | nil => intro base _; rfl
  | cons p rest ih =>
    intro base hall
    obtain ⟨a, b⟩ := p
    rw [dictMerge_cons, ih _ fun q hq => hall q (List.mem_cons_of_mem _ hq),
      dictSet_lookup_ne]
    exact fun hc => hall (a, b) (List.mem_cons_self _ _) (hc ▸ rfl)

theorem dictMerge_lookup_right (k v : String) :
    ∀ (upd base : List (String × String)),
      (upd.map Prod.fst).Nodup → upd.lookup k = some v →
      (dictMerge base upd).lookup k = some v := by
  intro upd
  induction upd with
  | nil => intro base _ h; cases h
  | cons p rest ih =>
    intro base hnd hl
    obtain ⟨a, b⟩ := p
    obtain ⟨hna, hndrest⟩ := List.nodup_cons.mp hnd
    rw [lookup_cons] at hl
    rcases hka : k == a
    · rw [hka, if_neg (by intro hc; cases hc)] at hl
      rw [dictMerge_cons]
      exact ih _ hndrest hl
    · rw [hka, if_pos rfl] at hl
      injection hl with hl
      subst hl
      have hkeq : k = a := eq_of_beq hka
      subst hkeq
      have hnotin : ∀ q ∈ rest, q.1 ≠ k := by
        intro q hq hc
        have hmm : q.1 ∈ List.map Prod.fst rest :=
          List.mem_map_of_mem Prod.fst hq
        rw [hc] at hmm
        exact hna hmm
      rw [dictMerge_cons, dictMerge_lookup_not_mem _ _ _ hnotin,
        dictSet_lookup_self]

end DictLemmas

section MakeAppLemmas

/-- The `finally` clause restores `sys.stdout` no matter how the `try`
block ends. -/
theorem staticKeySection_fst (pip : PipRun) (md5hex : String → String)
    (so : Stdout) : (staticKeySection pip md5hex so).1 = so := by
  rcases pip with _ | _ | listing
  · rfl
  · rfl
  · rfl

theorem staticKeySection_ok (listing : String) (md5hex : String → String)
    (so : Stdout) :
    staticKeySection (PipRun.ok listing) md5hex so =
      (so, Except.ok ("/" ++ md5hex listing)) := rfl

theorem make_app_no_secret {base given : List (String × String)}
    (env : Env) (pip : PipRun) (md5hex : String → String) (so : Stdout)
    (h : (dictSet (dictMerge base given) "mako.directories"
      "nextgisweb:templates/").lookup "secret" = none) :
    make_app base env given pip md5hex so =
      (so, Except.error MakeAppError.assertionSecretNotSet) := by
  rw [make_app]
  rw [h]

theorem make_app_pip_error {base given : List (String × String)}
    (env : Env) (pip : PipRun) (md5hex : String → String) (so : Stdout)
    {sec : String}
    (h : (dictSet (dictMerge base given) "mako.directories"
      "nextgisweb:templates/").lookup "secret" = some sec)
    {so2 : Stdout} {e : MakeAppError}
    (hst : staticKeySection pip md5hex so = (so2, Except.error e)) :
    make_app base env given pip md5hex so = (so2, Except.error e) := by
  rw [make_app]
  rw [h, hst]

theorem make_app_ok {base given : List (String × String)}
    (env : Env) (pip : PipRun) (md5hex : String → String) (so : Stdout)
    {sec : String}
    (h : (dictSet (dictMerge base given) "mako.directories"
      "nextgisweb:templates/").lookup "secret" = some sec)
    {so2 : Stdout} {key : String}
    (hst : staticKeySection pip md5hex so = (so2, Except.ok key)) :
    make_app base env given pip md5hex so =
      (so2, Except.ok
        { settings := dictSet (dictMerge base given) "mako.directories"
            "nextgisweb:templates/",
          requestProps := ["env"], includes := ["pyramid_tm"],
          authn := some sec, authz := true,
          routes := [("home", "/"),
            ("amd_package", "static" ++ key ++ "/amd/*subpath")],
          staticViews := [("static" ++ key ++ "/asset", "static")],
          pyramidHookCalls := env.components.map Comp.cid,
          routeHookCalls := env.components.map Comp.cid,
          scanned := true }) := by
  rw [make_app]
  rw [h, hst]
  rfl

end MakeAppLemmas

end PyramidComp

namespace FeatureLayer

section Claims

/-- Claim C1, counterexample.  The claim says the write removes every
existing field whose id is not referenced by any descriptor and that the
collection afterwards contains exactly the submitted fields in submission
order.  On a layer holding an unflushed field (its `id` is `None`, hence
falsy), writing an empty descriptor list must therefore empty the
collection — but the setter's first loop only pops truthy-id fields into
`fldmap`, so the unflushed field survives and the collection is not empty. -/
theorem C1_counterexample :
    setter exLayerU [] = Except.ok exLayerU ∧ exLayerU.fields ≠ [] :=
  ⟨by decide, by decide⟩

/-- Claim C1, amended: for every layer whose existing field objects are
distinct and all carry nonzero pairwise-distinct ids, and every submitted
list whose nonzero ids are pairwise distinct, a successful write preserves
and updates in place (same address, same id) each existing field matched by
id, creates a new field for each descriptor without a nonzero id, drops
exactly the unreferenced existing fields, and the final collection lists the
descriptors' fields in submission order. -/
theorem C1_amended {s : LayerState} {v : List FieldDesc} {s' : LayerState}
    (hv : ∀ a ∈ s.fields, a < s.heap.length)
    (hnd : s.fields.Nodup)
    (htr : ∀ a ∈ s.fields, idTruthy (fieldAt s.heap a).id = true)
    (hids : (s.fields.map fun a => (fieldAt s.heap a).id).Nodup)
    (hdids : (descIds v).Nodup)
    (hok : setter s v = Except.ok s') :
    s'.fields.length = v.length ∧
    (∀ j d, v.get? j = some d → ∃ a, s'.fields.get? j = some a ∧
      ((∃ n, d.id = some n ∧ n ≠ 0 ∧ a ∈ s.fields ∧
          (fieldAt s.heap a).id = some n ∧
          fieldAt s'.heap a =
            { applyFldUpdates (fieldAt s.heap a) d with idx := some j }) ∨
       (idTruthy d.id = false ∧ a ∉ s.fields ∧
          fieldAt s'.heap a =
            { applyFldUpdates (newField d) d with idx := some j }))) ∧
    (∀ a ∈ s.fields,
      (a ∈ s'.fields ↔ ∃ d ∈ v, d.id = (fieldAt s.heap a).id)) := by
  obtain ⟨s2, hfold, hs'⟩ := setter_ok_elim hok
  have hkept : (collectMap s.heap s.fields).2 = [] :=
    collectMap_snd_nil_of_truthy htr
  rw [hkept] at hfold
  have hmlt : ∀ n a, lookupId n (collectMap s.heap s.fields).1 = some a →
      a < s.heap.length := fun n a hl => lookupId_lt_of_collectMap hv hl
  have hminj : ∀ n n' a,
      lookupId n (collectMap s.heap s.fields).1 = some a →
      lookupId n' (collectMap s.heap s.fields).1 = some a → n = n' :=
    fun n n' a h1 h2 =>
      lookupId_injective (collectMap_fst_snd_nodup hnd) h1 h2
  obtain ⟨hlen2, hnd2, hb2, ⟨l, hl1, hl2, hlj, hlold, hlin⟩, hun⟩ :=
    foldl_setter_clean (collectMap s.heap s.fields).1 s.heap hmlt hminj v
      { heap := s.heap, fields := [], flf := none } s2
      (Nat.le_refl _)
      (fun d hd n a hdn hn0 hl =>
        ⟨rfl, fun hc => absurd hc (List.not_mem_nil a)⟩)
      hdids List.nodup_nil
      (fun b hb => absurd hb (List.not_mem_nil b)) hfold
  have hs2f : s2.fields = l := by
    rw [hl1]; rfl
  have hs'f : s'.fields = s2.fields := by rw [hs']
  have hs'h : s'.heap = reorderFrom s2.heap 0 s2.fields := by rw [hs']
  refine ⟨?_, ?_, ?_⟩
  · rw [hs'f, hs2f, hl2]
  · intro j d hj
    obtain ⟨a, hag, hcase⟩ := hlj j d hj
    refine ⟨a, by rw [hs'f, hs2f]; exact hag, ?_⟩
    have haj : s2.fields.get? j = some a := by rw [hs2f]; exact hag
    have hfr : fieldAt s'.heap a =
        { fieldAt s2.heap a with idx := some (0 + j) } := by
      rw [hs'h]
      exact fieldAt_reorderFrom_get s2.fields s2.heap 0 hnd2 hb2 j a haj
    rcases hcase with ⟨n, hdn, hn0, hln, hfe⟩ | ⟨hfal, hge, hfe⟩
    · have hmem := collectMap_fst_mem (lookupId_eq_some_mem hln)
      refine Or.inl ⟨n, hdn, hn0, hmem.1, hmem.2.1, ?_⟩
      rw [hfr, hfe, idx_update_update, Nat.zero_add]
    · have ha_not : a ∉ s.fields := by
        intro hc
        have h1 := hv a hc
        have h2 : s.heap.length ≤ a := hge
        omega
      refine Or.inr ⟨hfal, ha_not, ?_⟩
      rw [hfr, hfe, idx_update_update, Nat.zero_add]
  · intro a hamem
    constructor
    · intro hin
      rw [hs'f, hs2f] at hin
      obtain ⟨d, hd, n, hdn, hn0, hln⟩ := hlold a hin (hv a hamem)
      have hmem := collectMap_fst_mem (lookupId_eq_some_mem hln)
      exact ⟨d, hd, by rw [hdn, hmem.2.1]⟩
    · rintro ⟨d, hd, hdeq⟩
      obtain ⟨n, hidn, hn0⟩ := idTruthy_eq_true (htr a hamem)
      have hdn : d.id = some n := by rw [hdeq, hidn]
      have hlook := collectMap_lookup_self hids hamem hidn hn0
      rw [hs'f, hs2f]
      exact hlin a ⟨d, hd, n, hdn, hn0, hlook⟩

/-- Witness for C1_amended: writing `[exDesc2, exDescNew]` to `exLayerAB`
satisfies every hypothesis and yields a two-field collection. -/
theorem C1_witness :
    ((∀ a ∈ exLayerAB.fields, a < exLayerAB.heap.length) ∧
     exLayerAB.fields.Nodup ∧
     (∀ a ∈ exLayerAB.fields,
       idTruthy (fieldAt exLayerAB.heap a).id = true) ∧
     (exLayerAB.fields.map fun a => (fieldAt exLayerAB.heap a).id).Nodup ∧
     (descIds [exDesc2, exDescNew]).Nodup ∧
     setter exLayerAB [exDesc2, exDescNew] = Except.ok exResultDropAdd) ∧
    exResultDropAdd.fields.length =
      ([exDesc2, exDescNew] : List FieldDesc).length :=
  ⟨⟨by decide, by decide, by decide, by decide, by decide, by decide⟩,
    (@C1_amended exLayerAB [exDesc2, exDescNew] exResultDropAdd (by decide)
      (by decide) (by decide) (by decide) (by decide) (by decide)).1⟩

/-- Claim C2, counterexample.  The claim says a validation error is raised
iff some submitted descriptor carries an id that matches no existing field.
The descriptor `exDescZero` carries the id `0`, which matches no field of
the empty layer, yet the write succeeds and creates a new field: a falsy id
takes the no-id branch (`if fldid:`), so no error is raised. -/
theorem C2_counterexample :
    setter exLayerEmpty [exDescZero] = Except.ok exC2CexResult ∧
    exDescZero.id = some 0 ∧ exLayerEmpty.fields = [] :=
  ⟨by decide, rfl, rfl⟩

/-- Claim C2, amended: the write raises a validation error if and only if
some submitted descriptor carries a nonzero id that does not match the id of
any existing field of the layer. -/
theorem C2_amended (s : LayerState) (v : List FieldDesc) :
    (∃ e, setter s v = Except.error e) ↔
      ∃ d ∈ v, ∃ n, d.id = some n ∧ n ≠ 0 ∧
        ∀ a ∈ s.fields, (fieldAt s.heap a).id ≠ some n := by
  constructor
  · rintro ⟨e, he⟩
    have hf := setter_error_elim he
    obtain ⟨d, hd, n, hdn, hn0, hl⟩ := foldl_setter_error_iff.mp ⟨e, hf⟩
    exact ⟨d, hd, n, hdn, hn0, (collectMap_lookup_none_iff hn0).mp hl⟩
  · rintro ⟨d, hd, n, hdn, hn0, hnone⟩
    have hl : lookupId n (collectMap s.heap s.fields).1 = none :=
      (collectMap_lookup_none_iff hn0).mpr hnone
    obtain ⟨e, he⟩ := foldl_setter_error_iff.mpr ⟨d, hd, n, hdn, hn0, hl⟩
    refine ⟨e, ?_⟩
    rw [setter_unfold, he]

/-- Witness for C2_amended: submitting the unknown id 9 to `exLayerAB`
raises a validation error. -/
theorem C2_witness :
    ∃ e, setter exLayerAB [exDescNine] = Except.error e :=
  (C2_amended exLayerAB [exDescNine]).mpr
    ⟨exDescNine, List.mem_cons_self _ _, 9, rfl, by decide, by decide⟩

/-- Claim C3: on a layer whose fields all have (nonzero, distinct) ids, whose
idx values equal positions, and whose label reference points at one of its
own fields (the documented invariants), reading the fields and writing the
produced payload back returns the layer state unchanged: same field set, same
attributes, same idx ordering, same `feature_label_field`. -/
theorem C3_roundtrip {s : LayerState}
    (hv : ∀ a ∈ s.fields, a < s.heap.length)
    (htr : ∀ a ∈ s.fields, idTruthy (fieldAt s.heap a).id = true)
    (hids : (s.fields.map fun a => (fieldAt s.heap a).id).Nodup)
    (hidx : ∀ j a, s.fields.get? j = some a →
      (fieldAt s.heap a).idx = some j)
    (hflf : s.flf = none ∨ ∃ a ∈ s.fields, s.flf = some a) :
    setter s (List.map readToDesc (getter s)) = Except.ok s := by
  have hkept : (collectMap s.heap s.fields).2 = [] :=
    collectMap_snd_nil_of_truthy htr
  have hfold := roundtrip_fold s htr hids hidx s.fields [] rfl
  rw [flfAfter_nil, List.nil_append, flfAfter_full hflf] at hfold
  have hpayload : List.map readToDesc (getter s) =
      List.map (fun a => readToDesc (readField s a)) s.fields := by
    rw [getter, List.map_map]
    rfl
  rw [setter_unfold, hkept, hpayload, hfold]
  have hre : reorderFrom s.heap 0 s.fields = s.heap := by
    refine reorderFrom_self s.fields s.heap 0 ?_
    intro j a hj
    refine ⟨?_, hv a (List.get?_mem hj)⟩
    rw [Nat.zero_add]
    exact hidx j a hj
  show Except.ok
      { heap := reorderFrom s.heap 0 s.fields, fields := s.fields,
        flf := s.flf } = Except.ok s
  rw [hre]

/-- Witness for C3_roundtrip at the two-field layer `exLayerAB`. -/
theorem C3_witness :
    ((∀ a ∈ exLayerAB.fields, a < exLayerAB.heap.length) ∧
     (∀ a ∈ exLayerAB.fields,
       idTruthy (fieldAt exLayerAB.heap a).id = true) ∧
     (exLayerAB.fields.map fun a => (fieldAt exLayerAB.heap a).id).Nodup ∧
     (exLayerAB.flf = none ∨ ∃ a ∈ exLayerAB.fields,
       exLayerAB.flf = some a)) ∧
    setter exLayerAB (List.map readToDesc (getter exLayerAB)) =
      Except.ok exLayerAB :=
  ⟨⟨by decide, by decide, by decide, by decide⟩,
    @C3_roundtrip exLayerAB (by decide) (by decide) (by decide)
      (fun j a hj => by
        match j with
        | 0 => injection hj with hj; subst hj; rfl
        | 1 => injection hj with hj; subst hj; rfl
        | (j + 2) => simp [List.get?] at hj)
      (by decide)⟩

end Claims

end FeatureLayer

namespace FeatureLayer

section ClaimsB

/-- Claim C4, counterexample.  The claim says that after every write the idx
values are contiguous from zero and equal each field's position in the
submitted order.  Writing the single descriptor `exDescNew` to a layer
holding an unflushed (falsy-id) field yields a two-field collection: the
retained unflushed field occupies position 0, and the submitted descriptor's
new field (id `none`) sits at position 1 with `idx = 1`, not at its
submission position 0. -/
theorem C4_counterexample :
    setter exLayerU [exDescNew] = Except.ok exC4CexResult ∧
    exC4CexResult.fields.length = 2 ∧
    exC4CexResult.fields.get? 1 = some 1 ∧
    (fieldAt exC4CexResult.heap 1).id = none ∧
    (fieldAt exC4CexResult.heap 1).idx = some 1 :=
  ⟨by decide, rfl, rfl, by decide, by decide⟩

/-- Claim C4, amended: on a layer whose existing field objects are distinct
with nonzero pairwise-distinct ids, and for a submission whose nonzero ids
are pairwise distinct, a successful write produces one field per descriptor
and assigns every field of the collection an idx equal to its position,
contiguous from zero — in particular resubmitting existing fields in a new
order updates idx to match the submission order. -/
theorem C4_amended {s : LayerState} {v : List FieldDesc} {s' : LayerState}
    (hv : ∀ a ∈ s.fields, a < s.heap.length)
    (hnd : s.fields.Nodup)
    (htr : ∀ a ∈ s.fields, idTruthy (fieldAt s.heap a).id = true)
    (hdids : (descIds v).Nodup)
    (hok : setter s v = Except.ok s') :
    s'.fields.length = v.length ∧
    (∀ j a, s'.fields.get? j = some a →
      (fieldAt s'.heap a).idx = some j) := by
  obtain ⟨s2, hfold, hs'⟩ := setter_ok_elim hok
  have hkept : (collectMap s.heap s.fields).2 = [] :=
    collectMap_snd_nil_of_truthy htr
  rw [hkept] at hfold
  have hmlt : ∀ n a, lookupId n (collectMap s.heap s.fields).1 = some a →
      a < s.heap.length := fun n a hl => lookupId_lt_of_collectMap hv hl
  have hminj : ∀ n n' a,
      lookupId n (collectMap s.heap s.fields).1 = some a →
      lookupId n' (collectMap s.heap s.fields).1 = some a → n = n' :=
    fun n n' a h1 h2 =>
      lookupId_injective (collectMap_fst_snd_nodup hnd) h1 h2
  obtain ⟨hlen2, hnd2, hb2, ⟨l, hl1, hl2, hlj, hlold, hlin⟩, hun⟩ :=
    foldl_setter_clean (collectMap s.heap s.fields).1 s.heap hmlt hminj v
      { heap := s.heap, fields := [], flf := none } s2
      (Nat.le_refl _)
      (fun d hd n a hdn hn0 hl =>
        ⟨rfl, fun hc => absurd hc (List.not_mem_nil a)⟩)
      hdids List.nodup_nil
      (fun b hb => absurd hb (List.not_mem_nil b)) hfold
  have hs2f : s2.fields = l := by
    rw [hl1]; rfl
  have hs'f : s'.fields = s2.fields := by rw [hs']
  have hs'h : s'.heap = reorderFrom s2.heap 0 s2.fields := by rw [hs']
  refine ⟨by rw [hs'f, hs2f, hl2], ?_⟩
  intro j a hj
  rw [hs'f] at hj
  have hfr : fieldAt s'.heap a =
      { fieldAt s2.heap a with idx := some (0 + j) } := by
    rw [hs'h]
    exact fieldAt_reorderFrom_get s2.fields s2.heap 0 hnd2 hb2 j a hj
  rw [hfr]
  show some (0 + j) = some j
  rw [Nat.zero_add]

/-- Witness for C4_amended: resubmitting the two fields of `exLayerAB` in
swapped order gives each field the idx of its new submission position. -/
theorem C4_witness :
    ((∀ a ∈ exLayerAB.fields, a < exLayerAB.heap.length) ∧
     exLayerAB.fields.Nodup ∧
     (∀ a ∈ exLayerAB.fields,
       idTruthy (fieldAt exLayerAB.heap a).id = true) ∧
     (descIds [exDesc2, exDesc1]).Nodup ∧
     setter exLayerAB [exDesc2, exDesc1] = Except.ok exResultSwap) ∧
    exResultSwap.fields.length = ([exDesc2, exDesc1] : List FieldDesc).length ∧
    (fieldAt exResultSwap.heap 1).idx = some 0 ∧
    (fieldAt exResultSwap.heap 0).idx = some 1 :=
  ⟨⟨by decide, by decide, by decide, by decide, by decide⟩,
    (@C4_amended exLayerAB [exDesc2, exDesc1] exResultSwap (by decide)
      (by decide) (by decide) (by decide) (by decide)).1,
    by decide, by decide⟩

/-- Claim C5: after every successful write, if exactly one submitted
descriptor has `label_field` set then `feature_label_field` refers to the
field produced for that descriptor (the collection entry at the retained
falsy-id prefix length plus the descriptor's position), and if no submitted
descriptor has it set then `feature_label_field` is `None`. -/
theorem C5_label_field {s : LayerState} {v : List FieldDesc}
    {s' : LayerState} (hok : setter s v = Except.ok s') :
    ((∀ d ∈ v, d.label_field = false) → s'.flf = none) ∧
    (∀ p d, v.get? p = some d → d.label_field = true →
      (∀ q e, v.get? q = some e → e.label_field = true → q = p) →
      s'.flf = s'.fields.get?
        ((collectMap s.heap s.fields).2.length + p)) := by
  obtain ⟨s2, hfold, hs'⟩ := setter_ok_elim hok
  obtain ⟨l, hf, hlen, hflf⟩ := foldl_setter_fields_flf hfold
  have hf' : s2.fields = (collectMap s.heap s.fields).2 ++ l := hf
  have hs'flf : s'.flf = s2.flf := by rw [hs']
  have hs'f : s'.fields = s2.fields := by rw [hs']
  constructor
  · intro hall
    rw [hs'flf, hflf]
    refine lastLabel_eq_init ?_
    intro q hq
    obtain ⟨a, d⟩ := q
    exact hall d (List.of_mem_zip hq).2
  · intro p d hp hd huniq
    have hplt : p < v.length := lt_length_of_get?_eq_some hp
    have hplt' : p < l.length := by omega
    obtain ⟨a, hag⟩ := get?_is_some_of_lt hplt'
    have hz := zip_get? l v p a d hag hp
    have huniq' : ∀ q x, (l.zip v).get? q = some x →
        x.2.label_field = true → q = p :=
      fun q x hq hx => huniq q x.2 (zip_get?_right l v q x hq) hx
    have hlast : lastLabel none (l.zip v) = some a :=
      lastLabel_unique hz hd huniq'
    rw [hs'flf, hflf, hlast, hs'f, hf', get?_append_length_add, hag]

/-- Witness for C5_label_field: in the payload `[exDesc2, exDesc1]` only the
first descriptor carries `label_field`, and after the write
`feature_label_field` is the collection entry at position 0. -/
theorem C5_witness :
    setter exLayerAB [exDesc2, exDesc1] = Except.ok exResultSwap ∧
    exResultSwap.flf = exResultSwap.fields.get?
      ((collectMap exLayerAB.heap exLayerAB.fields).2.length + 0) :=
  ⟨by decide,
    (@C5_label_field exLayerAB [exDesc2, exDesc1] exResultSwap
        (by decide)).2 0 exDesc2 rfl rfl
      (fun q e hq he => by
        match q with
        | 0 => rfl
        | 1 =>
          injection hq with hq
          subst hq
          cases he
        | (q + 2) => simp [List.get?] at hq)⟩

/-- Claim C8: a submitted descriptor whose id is present but falsy (id 0) is
treated exactly as one without an id — the whole write computes the same
result, so it creates a new field rather than matching or raising — and a
successful write never drops an existing field whose id is falsy (not yet
persisted). -/
theorem C8_falsy_ids :
    (∀ (s : LayerState) (v1 v2 : List FieldDesc) (d : FieldDesc),
      setter s (v1 ++ { d with id := some 0 } :: v2) =
        setter s (v1 ++ { d with id := none } :: v2)) ∧
    (∀ (s : LayerState) (v : List FieldDesc) (s' : LayerState),
      setter s v = Except.ok s' →
      ∀ a ∈ s.fields, idTruthy (fieldAt s.heap a).id = false →
        a ∈ s'.fields) := by
  constructor
  · intro s v1 v2 d
    rw [setter_unfold, setter_unfold, foldl_setter_zero_id]
  · intro s v s' hok a hmem hfal
    obtain ⟨s2, hfold, hs'⟩ := setter_ok_elim hok
    obtain ⟨l, hf, -, -⟩ := foldl_setter_fields_flf hfold
    have hkept : a ∈ (collectMap s.heap s.fields).2 := by
      rw [collectMap_snd_eq]
      refine List.mem_filter.mpr ⟨hmem, ?_⟩
      rw [hfal]
      rfl
    have hf' : s2.fields = (collectMap s.heap s.fields).2 ++ l := hf
    have hs'f : s'.fields = s2.fields := by rw [hs']
    rw [hs'f, hf']
    exact List.mem_append.mpr (Or.inl hkept)

/-- Witness for C8_falsy_ids: the empty layer treats an `id: 0` descriptor
exactly like an id-less one, and the unflushed field of `exLayerU` (address
0) survives the write that produced `exC4CexResult`. -/
theorem C8_witness :
    setter exLayerEmpty [{ exDescNew with id := some 0 }] =
      setter exLayerEmpty [{ exDescNew with id := none }] ∧
    0 ∈ exC4CexResult.fields :=
  ⟨C8_falsy_ids.1 exLayerEmpty [] [] exDescNew,
    C8_falsy_ids.2 exLayerU [exDescNew] exC4CexResult (by decide) 0
      (by decide) (by decide)⟩

end ClaimsB

end FeatureLayer

namespace PyramidComp

section Claims

/-- Claim C6: `make_app` returns the fatal assertion failure exactly when the
merged settings (component defaults updated by the caller's dict) lack the
key `secret`; and whenever it gets past that check and returns a
configuration, the authentication policy has been registered with the merged
`secret` value — it is never registered without one. -/
theorem C6_secret_assert (base : List (String × String)) (env : Env)
    (given : List (String × String)) (pip : PipRun)
    (md5hex : String → String) (so : Stdout) :
    ((make_app base env given pip md5hex so).2 =
        Except.error MakeAppError.assertionSecretNotSet ↔
      (dictMerge base given).lookup "secret" = none) ∧
    (∀ cfg, (make_app base env given pip md5hex so).2 = Except.ok cfg →
      ∃ sec, (dictMerge base given).lookup "secret" = some sec ∧
        cfg.authn = some sec) := by
  have hne : ("secret" : String) ≠ "mako.directories" := by decide
  have hsk : (dictSet (dictMerge base given) "mako.directories"
        "nextgisweb:templates/").lookup "secret" =
      (dictMerge base given).lookup "secret" :=
    dictSet_lookup_ne _ _ _ _ hne
  rcases hsec : (dictMerge base given).lookup "secret" with _ | sec
  · have h0 : (dictSet (dictMerge base given) "mako.directories"
        "nextgisweb:templates/").lookup "secret" = none := by
      rw [hsk, hsec]
    rw [make_app_no_secret env pip md5hex so h0]
    constructor
    · exact ⟨fun _ => rfl, fun _ => rfl⟩
    · intro cfg hc
      cases hc
  · have h1 : (dictSet (dictMerge base given) "mako.directories"
        "nextgisweb:templates/").lookup "secret" = some sec := by
      rw [hsk, hsec]
    rcases hst : staticKeySection pip md5hex so with ⟨so2, res⟩
    rcases res with e | key
    · have he : e = MakeAppError.pipFailure := by
        rcases pip with _ | _ | listing
        · injection hst with h1' h2'
          injection h2' with h2''
          exact h2''.symm
        · injection hst with h1' h2'
          injection h2' with h2''
          exact h2''.symm
        · injection hst with h1' h2'
          injection h2'
      subst he
      rw [make_app_pip_error env pip md5hex so h1 hst]
      constructor
      · constructor
        · intro h
          injection h with h
          exact absurd h (by decide)
        · intro h
          cases h
      · intro cfg hc
        cases hc
    · rw [make_app_ok env pip md5hex so h1 hst]
      constructor
      · constructor
        · intro h
          cases h
        · intro h
          cases h
      · intro cfg hc
        injection hc with hc
        subst hc
        exact ⟨sec, rfl, rfl⟩

/-- Witness for C6_secret_assert: bootstrapping without a `secret` setting
fails fast with the assertion error. -/
theorem C6_witness :
    (make_app [] exEnv exNoSecret (PipRun.ok "p") (fun s => s)
      (Stdout.real 7)).2 = Except.error MakeAppError.assertionSecretNotSet :=
  (C6_secret_assert [] exEnv exNoSecret (PipRun.ok "p") (fun s => s)
    (Stdout.real 7)).1.mpr rfl

/-- Claim C7: whenever `make_app` succeeds, the `setup_pyramid` hook trace
and the `setup_routes` hook trace each equal the component registry in
registration order; with distinct component identities, every registered
component is therefore invoked exactly once by each loop. -/
theorem C7_hooks {base given : List (String × String)} {env : Env}
    {pip : PipRun} {md5hex : String → String} {so : Stdout} {cfg : PConfig}
    (hok : (make_app base env given pip md5hex so).2 = Except.ok cfg) :
    cfg.pyramidHookCalls = env.components.map Comp.cid ∧
    cfg.routeHookCalls = env.components.map Comp.cid ∧
    ((env.components.map Comp.cid).Nodup →
      ∀ c ∈ env.components, cfg.pyramidHookCalls.count c.cid = 1 ∧
        cfg.routeHookCalls.count c.cid = 1) := by
  rcases hsec : (dictSet (dictMerge base given) "mako.directories"
      "nextgisweb:templates/").lookup "secret" with _ | sec
  · rw [make_app_no_secret env pip md5hex so hsec] at hok
    cases hok
  · rcases hst : staticKeySection pip md5hex so with ⟨so2, res⟩
    rcases res with e | key
    · rw [make_app_pip_error env pip md5hex so hsec hst] at hok
      cases hok
    · rw [make_app_ok env pip md5hex so hsec hst] at hok
      injection hok with hok
      subst hok
      refine ⟨rfl, rfl, ?_⟩
      intro hnd c hc
      have hcid : c.cid ∈ env.components.map Comp.cid :=
        List.mem_map_of_mem _ hc
      exact ⟨List.count_eq_one_of_mem hnd hcid,
        List.count_eq_one_of_mem hnd hcid⟩

/-- Witness for C7_hooks: with two registered components the successful
bootstrap invokes both hooks on both components in registration order. -/
theorem C7_witness :
    (make_app [] exEnv exGiven (PipRun.ok "p") (fun s => s)
        (Stdout.real 7)).2 = Except.ok exCfg ∧
    exCfg.pyramidHookCalls = exEnv.components.map Comp.cid :=
  ⟨rfl,
    (@C7_hooks [] exGiven exEnv (PipRun.ok "p") (fun s => s) (Stdout.real 7)
      exCfg rfl).1⟩

/-- Claim C9: `make_app` leaves `sys.stdout` at its original value on every
path — when the assertion fires before the static-key section, when the
pip module fails on load or the freeze listing raises (the `finally` clause
restores it and the exception propagates), and on success. -/
theorem C9_stdout_restored (base : List (String × String)) (env : Env)
    (given : List (String × String)) (pip : PipRun)
    (md5hex : String → String) (so : Stdout) :
    (make_app base env given pip md5hex so).1 = so := by
  rcases hsec : (dictSet (dictMerge base given) "mako.directories"
      "nextgisweb:templates/").lookup "secret" with _ | sec
  · rw [make_app_no_secret env pip md5hex so hsec]
  · rcases hst : staticKeySection pip md5hex so with ⟨so2, res⟩
    have hso2 : so2 = so := by
      have hfst := staticKeySection_fst pip md5hex so
      rw [hst] at hfst
      exact hfst
    rcases res with e | key
    · rw [make_app_pip_error env pip md5hex so hsec hst, hso2]
    · rw [make_app_ok env pip md5hex so hsec hst, hso2]

/-- Claim C10: on every successful bootstrap the configuration's
`mako.directories` setting is the fixed value `nextgisweb:templates/`
regardless of what the caller supplied, every other key reads exactly as in
the merged dict, and every other caller-supplied setting is passed through
unchanged. -/
theorem C10_mako_override {base given : List (String × String)} {env : Env}
    {pip : PipRun} {md5hex : String → String} {so : Stdout} {cfg : PConfig}
    (hkeys : (given.map Prod.fst).Nodup)
    (hok : (make_app base env given pip md5hex so).2 = Except.ok cfg) :
    cfg.settings.lookup "mako.directories" = some "nextgisweb:templates/" ∧
    (∀ k, k ≠ "mako.directories" →
      cfg.settings.lookup k = (dictMerge base given).lookup k) ∧
    (∀ k v', k ≠ "mako.directories" → given.lookup k = some v' →
      cfg.settings.lookup k = some v') := by
  rcases hsec : (dictSet (dictMerge base given) "mako.directories"
      "nextgisweb:templates/").lookup "secret" with _ | sec
  · rw [make_app_no_secret env pip md5hex so hsec] at hok
    cases hok
  · rcases hst : staticKeySection pip md5hex so with ⟨so2, res⟩
    rcases res with e | key
    · rw [make_app_pip_error env pip md5hex so hsec hst] at hok
      cases hok
    · rw [make_app_ok env pip md5hex so hsec hst] at hok
      injection hok with hok
      subst hok
      refine ⟨dictSet_lookup_self _ _ _,
        fun k hk => dictSet_lookup_ne _ _ _ _ hk,
        fun k v' hk hg => ?_⟩
      rw [dictSet_lookup_ne _ _ _ _ hk]
      exact dictMerge_lookup_right k v' given base hkeys hg

/-- Witness for C10_mako_override: with caller settings `exGiven` the built
configuration reads the fixed mako template directory and passes the
caller's `debug` setting through. -/
theorem C10_witness :
    ((exGiven.map Prod.fst).Nodup ∧
     (make_app [] exEnv exGiven (PipRun.ok "p") (fun s => s)
        (Stdout.real 7)).2 = Except.ok exCfg) ∧
    exCfg.settings.lookup "mako.directories" =
      some "nextgisweb:templates/" ∧
    exCfg.settings.lookup "debug" = some "1" :=
  ⟨⟨by decide, rfl⟩,
    (@C10_mako_override [] exGiven exEnv (PipRun.ok "p") (fun s => s)
      (Stdout.real 7) exCfg (by decide) rfl).1,
    (@C10_mako_override [] exGiven exEnv (PipRun.ok "p") (fun s => s)
      (Stdout.real 7) exCfg (by decide) rfl).2.2 "debug" "1" (by decide)
      rfl⟩

end Claims

end PyramidComp
